import Mathlib

/-!
Formal model of the rf_trace_viewer trace-to-model pipeline
(`src/rf_trace_viewer/parser.py`, `tree.py`, `rf_model.py`).

The Python code is shallowly embedded:

* Python runtime values reachable in the pipeline are modelled by `PyVal`.
  Numbers decoded from JSON are modelled as integers (`PyVal.int`); the
  claims under study never observe fractional attribute values, so JSON
  fractional literals are rejected by the modelled decoder (documented at
  `jsonParseNumber`).  Python floats produced by conversions are carried as
  exact rationals plus infinity/NaN markers; IEEE-754 rounding is not
  modelled, and no claim observes a float's magnitude.
* Exceptions are modelled with `Except PyErr`; the distinct constructors of
  `PyErr` matter because the source catches specific exception classes.
* Dictionaries are association lists in insertion order, matching CPython's
  ordered dicts; key lookup compares with structural equality.
-/

/-- A Python runtime value as it can occur in the pipeline: the decoded JSON
values plus the results of Python conversions (`int`, `float`, `bool`). -/
inductive PyVal where
  | none
  | bool (b : Bool)
  | int (n : Int)
  | float (q : ℚ)
  | inf (neg : Bool)
  | nan
  | str (s : String)
  | list (elems : List PyVal)
  | dict (entries : List (PyVal × PyVal))

mutual
/-- Structural equality test for `PyVal` (written by hand because `deriving
DecidableEq` does not support this nested inductive). -/
def pyBeq : PyVal → PyVal → Bool
  | .none, .none => true
  | .bool a, .bool b => a == b
  | .int a, .int b => a == b
  | .float a, .float b => a == b
  | .inf a, .inf b => a == b
  | .nan, .nan => true
  | .str a, .str b => a == b
  | .list a, .list b => pyBeqList a b
  | .dict a, .dict b => pyBeqDict a b
  | _, _ => false

def pyBeqList : List PyVal → List PyVal → Bool
  | [], [] => true
  | a :: as', b :: bs => pyBeq a b && pyBeqList as' bs
  | _, _ => false

def pyBeqDict : List (PyVal × PyVal) → List (PyVal × PyVal) → Bool
  | [], [] => true
  | (k1, v1) :: as', (k2, v2) :: bs => pyBeq k1 k2 && pyBeq v1 v2 && pyBeqDict as' bs
  | _, _ => false
end

theorem pyBeq_iff : ∀ (a b : PyVal), pyBeq a b = true ↔ a = b := by
  have main : ∀ (n : Nat) (a b : PyVal), sizeOf a ≤ n → (pyBeq a b = true ↔ a = b) := by
    intro n
    induction n with
    | zero => intro a b h; cases a <;> simp at h
    | succ n ih =>
      intro a b hle
      have listCase : ∀ (l1 l2 : List PyVal), sizeOf l1 ≤ n →
          (pyBeqList l1 l2 = true ↔ l1 = l2) := by
        intro l1
        induction l1 with
        | nil => intro l2 _; cases l2 <;> simp [pyBeqList]
        | cons x xs ihl =>
          intro l2 hsz
          cases l2 with
          | nil => simp [pyBeqList]
          | cons y ys =>
            simp only [pyBeqList, Bool.and_eq_true]
            have h1 : sizeOf x ≤ n := by simp at hsz; omega
            have h2 : sizeOf xs ≤ n := by simp at hsz; omega
            rw [ih x y h1, ihl ys (by omega)]
            simp
      have dictCase : ∀ (l1 l2 : List (PyVal × PyVal)), sizeOf l1 ≤ n →
          (pyBeqDict l1 l2 = true ↔ l1 = l2) := by
        intro l1
        induction l1 with
        | nil => intro l2 _; cases l2 <;> simp [pyBeqDict]
        | cons x xs ihl =>
          intro l2 hsz
          obtain ⟨k1, v1⟩ := x
          cases l2 with
          | nil => simp [pyBeqDict]
          | cons y ys =>
            obtain ⟨k2, v2⟩ := y
            simp only [pyBeqDict, Bool.and_eq_true]
            have h1 : sizeOf k1 ≤ n := by simp at hsz; omega
            have h2 : sizeOf v1 ≤ n := by simp at hsz; omega
            have h3 : sizeOf xs ≤ n := by simp at hsz; omega
            rw [ih k1 k2 h1, ih v1 v2 h2, ihl ys (by omega)]
            simp
      cases a <;> cases b <;> simp [pyBeq] <;> first
        | rfl
        | (apply listCase; simp at hle; omega)
        | (apply dictCase; simp at hle; omega)
  intro a b
  exact main (sizeOf a) a b (le_refl _)

instance : DecidableEq PyVal := fun a b => decidable_of_iff _ (pyBeq_iff a b)

/-- Python exception classes that the pipeline raises or catches.
`jsonDecodeError` stands for `json.JSONDecodeError` (a `ValueError`
subclass; every handler in the source that cares lists both spellings
explicitly, so subclassing needs no special treatment). -/
inductive PyErr where
  | jsonDecodeError
  | valueError
  | typeError
  | keyError
  | attributeError
  | overflowError
deriving DecidableEq, Repr

instance {ε α : Type} [DecidableEq ε] [DecidableEq α] : DecidableEq (Except ε α) := fun
  | .ok a, .ok b =>
    if h : a = b then .isTrue (congrArg _ h) else .isFalse (fun he => h (Except.ok.inj he))
  | .error a, .error b =>
    if h : a = b then .isTrue (congrArg _ h) else .isFalse (fun he => h (Except.error.inj he))
  | .ok _, .error _ => .isFalse (fun he => Except.noConfusion he)
  | .error _, .ok _ => .isFalse (fun he => Except.noConfusion he)

/-- Python truthiness (`bool(x)`) for the modelled values. -/
def pyTruthy : PyVal → Bool
  | .none => false
  | .bool b => b
  | .int n => n != 0
  | .float q => q != 0
  | .inf _ => true
  | .nan => true
  | .str s => !s.isEmpty
  | .list l => !l.isEmpty
  | .dict d => !d.isEmpty

/-- Python dict lookup (`d[k]` present-test / `d.get(k)`), first matching key.
Dicts built by the pipeline keep keys unique, so first-match equals
CPython's unique-key lookup. -/
def dictGet : List (PyVal × PyVal) → PyVal → Option PyVal
  | [], _ => Option.none
  | (k, v) :: rest, key => if k = key then Option.some v else dictGet rest key

/-- Python `d.get(key, default)`. -/
def pyGet (d : List (PyVal × PyVal)) (key dflt : PyVal) : PyVal :=
  (dictGet d key).getD dflt

/-- Python `d[key] = v`: overwrite in place keeping the original slot, else
append (CPython insertion-order semantics). -/
def dictSet : List (PyVal × PyVal) → PyVal → PyVal → List (PyVal × PyVal)
  | [], k, v => [(k, v)]
  | (k', v') :: rest, k, v =>
    if k' = k then (k, v) :: rest else (k', v') :: dictSet rest k v

/-- Python iteration (`for x in v`): lists yield elements, strings yield
one-character strings, dicts yield their keys; other values raise
`TypeError`. -/
def pyIter : PyVal → Except PyErr (List PyVal)
  | .list l => .ok l
  | .str s => .ok (s.toList.map (fun c => .str (String.mk [c])))
  | .dict d => .ok (d.map (fun e => e.1))
  | _ => .error .typeError

/-- Whitespace for Python `str.strip()` and number parsing (ASCII subset). -/
def isPySpace (c : Char) : Bool :=
  c = ' ' || c = '\t' || c = '\n' || c = '\r' || c = '\x0b' || c = '\x0c'

/-- Python `str.strip()` on the character list. -/
def pyStripChars (cs : List Char) : List Char :=
  ((cs.dropWhile isPySpace).reverse.dropWhile isPySpace).reverse

/-- Python `str.strip()`. -/
def pyStrip (s : String) : String :=
  String.mk (pyStripChars s.toList)

/-- Reads the remaining digits of an integer literal after the first digit,
allowing single underscores between digits as Python does. -/
def pyDigitsRest (acc : Nat) : List Char → Option Nat
  | [] => some acc
  | '_' :: c :: cs =>
    if c.isDigit then pyDigitsRest (acc * 10 + (c.toNat - 48)) cs else Option.none
  | c :: cs =>
    if c.isDigit then pyDigitsRest (acc * 10 + (c.toNat - 48)) cs else Option.none

/-- Reads a full unsigned digit run (Python integer-literal digits). -/
def pyUnsignedDigits : List Char → Option Nat
  | [] => Option.none
  | c :: cs => if c.isDigit then pyDigitsRest (c.toNat - 48) cs else Option.none

/-- Python `int(s)` on a string: optional surrounding whitespace, optional
sign, then base-10 digits (underscore separators allowed). -/
def pyIntOfString (s : String) : Option Int :=
  match pyStripChars s.toList with
  | '+' :: rest => (pyUnsignedDigits rest).map Int.ofNat
  | '-' :: rest => (pyUnsignedDigits rest).map (fun n => -(Int.ofNat n : Int))
  | rest => (pyUnsignedDigits rest).map Int.ofNat

/-- Lower-cases ASCII letters of a character list (for float literals). -/
def asciiLower (cs : List Char) : List Char :=
  cs.map (fun c => c.toLower)

/-- Reads `digits` then optionally `.digits?`, returning (mantissa, number of
fractional digits), for Python float literals. -/
def pyFloatMantissa (cs : List Char) : Option (Nat × Nat × List Char) :=
  match cs with
  | '.' :: rest =>
    match pyUnsignedDigits (rest.takeWhile (fun c => c.isDigit || c = '_')) with
    | some frac =>
      let fracChars := rest.takeWhile (fun c => c.isDigit || c = '_')
      some (frac, (fracChars.filter (·.isDigit)).length,
            rest.dropWhile (fun c => c.isDigit || c = '_'))
    | Option.none => Option.none
  | _ =>
    let intChars := cs.takeWhile (fun c => c.isDigit || c = '_')
    match pyUnsignedDigits intChars with
    | Option.none => Option.none
    | some ip =>
      match cs.dropWhile (fun c => c.isDigit || c = '_') with
      | '.' :: rest =>
        let fracChars := rest.takeWhile (fun c => c.isDigit || c = '_')
        match fracChars with
        | [] => some (ip, 0, rest)
        | _ =>
          match pyUnsignedDigits fracChars with
          | some frac =>
            some (ip * 10 ^ (fracChars.filter (·.isDigit)).length + frac,
                  (fracChars.filter (·.isDigit)).length,
                  rest.dropWhile (fun c => c.isDigit || c = '_'))
          | Option.none => Option.none
      | rest => some (ip, 0, rest)

/-- Python `float(s)` on a string: optional whitespace and sign, then a
decimal literal with optional exponent, or `inf`/`infinity`/`nan`
(case-insensitive).  The magnitude is exact (ℚ); IEEE rounding is not
modelled and no claim observes it. -/
def pyFloatOfString (s : String) : Option PyVal :=
  let stripped := pyStripChars s.toList
  let signed : Bool × List Char :=
    match stripped with
    | '+' :: rest => (false, rest)
    | '-' :: rest => (true, rest)
    | rest => (false, rest)
  let neg := signed.1
  let body := asciiLower signed.2
  if body = ['i', 'n', 'f'] || body = ['i', 'n', 'f', 'i', 'n', 'i', 't', 'y'] then
    some (.inf neg)
  else if body = ['n', 'a', 'n'] then
    some .nan
  else
    match pyFloatMantissa signed.2 with
    | Option.none => Option.none
    | some (m, fracDigits, rest) =>
      let base : ℚ := (m : ℚ) / ((10 : ℚ) ^ fracDigits)
      match rest with
      | [] => some (.float (if neg then -base else base))
      | e :: erest =>
        if e = 'e' || e = 'E' then
          let esigned : Bool × List Char :=
            match erest with
            | '+' :: r => (false, r)
            | '-' :: r => (true, r)
            | r => (false, r)
          match pyUnsignedDigits esigned.2 with
          | some ev =>
            if (esigned.2.dropWhile (fun c => c.isDigit || c = '_')) = [] then
              let scaled : ℚ :=
                if esigned.1 then base / ((10 : ℚ) ^ ev) else base * ((10 : ℚ) ^ ev)
              some (.float (if neg then -scaled else scaled))
            else Option.none
          | Option.none => Option.none
        else Option.none

/-- Python `int(x)` on a runtime value: ints pass through, bools map to 0/1,
floats truncate toward zero (`OverflowError`/`ValueError` on inf/nan),
strings parse as integer literals (`ValueError` otherwise), everything else
raises `TypeError`. -/
def pyInt : PyVal → Except PyErr Int
  | .int n => .ok n
  | .bool b => .ok (if b then 1 else 0)
  | .float q => .ok (q.num.tdiv (q.den : Int))
  | .inf _ => .error .overflowError
  | .nan => .error .valueError
  | .str s =>
    match pyIntOfString s with
    | some n => .ok n
    | Option.none => .error .valueError
  | _ => .error .typeError

/-- Python `float(x)` on a runtime value. -/
def pyFloat : PyVal → Except PyErr PyVal
  | .int n => .ok (.float (n : ℚ))
  | .bool b => .ok (.float (if b then 1 else 0))
  | .float q => .ok (.float q)
  | .inf n => .ok (.inf n)
  | .nan => .ok .nan
  | .str s =>
    match pyFloatOfString s with
    | some v => .ok v
    | Option.none => .error .valueError
  | _ => .error .typeError

mutual
/-- Python `repr(x)` / `str(x)` rendering, used only by `str(...)` field
conversions whose text no claim observes; container rendering follows
Python's shape, string escaping and float formatting are approximated. -/
def pyRepr : PyVal → String
  | .none => "None"
  | .bool b => if b then "True" else "False"
  | .int n => toString n
  | .float q => if q.den = 1 then toString q.num ++ ".0" else toString q
  | .inf neg => if neg then "-inf" else "inf"
  | .nan => "nan"
  | .str s => "'" ++ s ++ "'"
  | .list l => "[" ++ String.intercalate ", " (pyReprList l) ++ "]"
  | .dict d => "\x7b" ++ String.intercalate ", " (pyReprDict d) ++ "\x7d"

def pyReprList : List PyVal → List String
  | [] => []
  | v :: vs => pyRepr v :: pyReprList vs

def pyReprDict : List (PyVal × PyVal) → List String
  | [] => []
  | (k, v) :: rest => (pyRepr k ++ ": " ++ pyRepr v) :: pyReprDict rest
end

/-- Python `str(x)`: identity on strings, `repr` rendering otherwise. -/
def pyStr : PyVal → String
  | .str s => s
  | v => pyRepr v

/-- Python `needle in container` as used by `_extract_value`: dict key test,
list membership, substring test on strings; other containers raise
`TypeError`. -/
def pyContains (container : PyVal) (needle : String) : Except PyErr Bool :=
  match container with
  | .dict d => .ok ((dictGet d (.str needle)).isSome)
  | .list l => .ok (l.contains (.str needle))
  | .str s => .ok (decide (needle.toList <:+: s.toList))
  | _ => .error .typeError

/-- The OTLP value tags, in the order `_extract_value` tests them. -/
def otlpTags : List String :=
  ["string_value", "int_value", "double_value", "bool_value",
   "array_value", "kvlist_value", "bytes_value"]

/-- Behaviour of `_extract_value` when the value object is a string (possible
for elements of a malformed `array_value.values`): every `tag in value_obj`
test is a substring test, and any hit leads to `value_obj[tag]`, which on a
string raises `TypeError`; no hit falls through to `None`. -/
def extractStrTag (s : String) : Except PyErr PyVal :=
  if otlpTags.any (fun t => decide (t.toList <:+: s.toList)) then .error .typeError
  else .ok .none

/-- Behaviour of `_extract_value` when the value object is a list: `tag in
value_obj` is membership, a hit leads to list indexing with a string key
(`TypeError`); no hit falls through to `None`. -/
def extractListTag (l : List PyVal) : Except PyErr PyVal :=
  if otlpTags.any (fun t => l.contains (.str t)) then .error .typeError
  else .ok .none

mutual
/-- Model of `_extract_value` (parser.py:49-74).  The `fuel` argument only
bounds recursion depth so that the definition is structural; the wrapper
`_extract_value` supplies more fuel than any input can consume (each
recursive call is on a structurally smaller value or a fresh one-character
string that cannot recurse further). -/
def extractValueFuel : Nat → PyVal → Except PyErr PyVal
  | 0, _ => .error .typeError
  | fuel + 1, value_obj =>
    match value_obj with
    | .dict d =>
      match dictGet d (.str "string_value") with
      | some v => .ok v
      | Option.none =>
      match dictGet d (.str "int_value") with
      | some v => (pyInt v).map PyVal.int
      | Option.none =>
      match dictGet d (.str "double_value") with
      | some v => pyFloat v
      | Option.none =>
      match dictGet d (.str "bool_value") with
      | some v => .ok (.bool (pyTruthy v))
      | Option.none =>
      match dictGet d (.str "array_value") with
      | some av =>
        match av with
        | .dict ad =>
          match dictGet ad (.str "values") with
          | some x =>
            match x with
            | .list vs => (extractListFuel fuel vs).map PyVal.list
            | .str s =>
              ((s.toList.mapM (fun c => extractStrTag (String.mk [c]))).map PyVal.list)
            | .dict dd => (extractListFuel fuel (dd.map (fun e => e.1))).map PyVal.list
            | _ => .error .typeError
          | Option.none => .ok (.list [])
        | _ => .ok (.list [])
      | Option.none =>
      match dictGet d (.str "kvlist_value") with
      | some kv =>
        match kv with
        | .dict kd =>
          match dictGet kd (.str "values") with
          | some x =>
            match x with
            | .list vs => (extractKvFuel fuel vs []).map PyVal.dict
            | .str s =>
              if s.isEmpty then .ok (.dict [])
              else .error .attributeError
            | .dict dd => (extractKvFuel fuel (dd.map (fun e => e.1)) []).map PyVal.dict
            | _ => .error .typeError
          | Option.none => .ok (.dict [])
        | _ => .ok (.dict [])
      | Option.none =>
      match dictGet d (.str "bytes_value") with
      | some v => .ok v
      | Option.none => .ok .none
    | .str s => extractStrTag s
    | .list l => extractListTag l
    | _ => .error .typeError

/-- Elementwise extraction for `array_value.values`. -/
def extractListFuel : Nat → List PyVal → Except PyErr (List PyVal)
  | 0, _ => .error .typeError
  | _ + 1, [] => .ok []
  | fuel + 1, v :: vs => do
    let x ← extractValueFuel fuel v
    let xs ← extractListFuel fuel vs
    .ok (x :: xs)

/-- Dict-comprehension fold for `kvlist_value.values`: each element must be a
dict (`kv.get` raises `AttributeError` otherwise); entries are inserted
with Python dict overwrite semantics. -/
def extractKvFuel : Nat → List PyVal → List (PyVal × PyVal) → Except PyErr (List (PyVal × PyVal))
  | 0, _, _ => .error .typeError
  | _ + 1, [], acc => .ok acc
  | fuel + 1, kv :: rest, acc =>
    match kv with
    | .dict kvd => do
      let key := pyGet kvd (.str "key") (.str "")
      let w := pyGet kvd (.str "value") (.dict [])
      let v ← extractValueFuel fuel w
      extractKvFuel fuel rest (dictSet acc key v)
    | _ => .error .attributeError
end

mutual
/-- Structural size of a `PyVal`, used to supply sufficient fuel (the
library `sizeOf` for this nested inductive has no executable code). -/
def pyValSize : PyVal → Nat
  | .list l => 1 + pyValSizeList l
  | .dict d => 1 + pyValSizeDict d
  | _ => 1

def pyValSizeList : List PyVal → Nat
  | [] => 1
  | v :: vs => 1 + pyValSize v + pyValSizeList vs

def pyValSizeDict : List (PyVal × PyVal) → Nat
  | [] => 1
  | (k, v) :: rest => 1 + pyValSize k + pyValSize v + pyValSizeDict rest
end

/-- Model of `_extract_value` (parser.py:49-74) at full fuel: every recursive
call is on a structurally smaller value or a fresh one-character string
that cannot recurse, so `pyValSize value_obj + 2` exceeds any reachable
recursion depth. -/
def extract_value (value_obj : PyVal) : Except PyErr PyVal :=
  extractValueFuel (pyValSize value_obj + 2) value_obj

/-- Loop body of `flatten_attributes` (parser.py:40-45): entries with falsy
keys or non-dict value objects are skipped; `attr.get` on a non-dict
element raises `AttributeError`. -/
def flattenLoop : List PyVal → List (PyVal × PyVal) → Except PyErr (List (PyVal × PyVal))
  | [], acc => .ok acc
  | attr :: rest, acc =>
    match attr with
    | .dict d =>
      let key := pyGet d (.str "key") (.str "")
      let value_obj := pyGet d (.str "value") (.dict [])
      if pyTruthy key = false then flattenLoop rest acc
      else
        match value_obj with
        | .dict _ => do
          let v ← extract_value value_obj
          flattenLoop rest (dictSet acc key v)
        | _ => flattenLoop rest acc
    | _ => .error .attributeError

/-- Model of `flatten_attributes` (parser.py:30-46). -/
def flatten_attributes (attrs : PyVal) : Except PyErr (List (PyVal × PyVal)) :=
  if pyTruthy attrs = false then .ok []
  else do
    let items ← pyIter attrs
    flattenLoop items []

/-- Model of `normalize_id` (parser.py:77-85). -/
def normalize_id (raw_id : PyVal) : Except PyErr String :=
  if pyTruthy raw_id = false then .ok ""
  else
    match raw_id with
    | .str s => .ok (String.mk (asciiLower (pyStrip s).toList))
    | _ => .error .attributeError

example :
    flatten_attributes
      (.list [.dict [(.str "key", .str "k"),
                     (.str "value", .dict [(.str "string_value", .str "v")])]]) =
      .ok [(.str "k", .str "v")] := by decide

example :
    flatten_attributes
      (.list [.dict [(.str "key", .str "k"),
                     (.str "value", .dict [(.str "int_value", .str "abc")])]]) =
      .error .valueError := by decide

example : normalize_id (.str " AB ") = .ok "ab" := by decide
example : normalize_id (.int 5) = .error .attributeError := by decide
example : pyIntOfString "  -1_23 " = some (-123) := by decide
example : pyIntOfString "12.5" = Option.none := by decide

/-- A parsed span (parser.py:13-27).  Fields annotated `str` in the source
but never converted (`name`, `kind`) are carried as runtime values. -/
structure RawSpan where
  trace_id : String
  span_id : String
  parent_span_id : String
  name : PyVal
  kind : PyVal
  start_time_unix_nano : Int
  end_time_unix_nano : Int
  attributes : List (PyVal × PyVal)
  status : List (PyVal × PyVal)
  events : List PyVal
  resource_attributes : List (PyVal × PyVal)
deriving DecidableEq

/-- The `raw.get(snake) or raw.get(camel, dflt)` fallback pattern of
`_parse_raw_span` (parser.py:142-150): Python `or` picks the second
operand whenever the first is falsy, not merely missing. -/
def fieldFallback (raw : List (PyVal × PyVal)) (snake camel : String) (dflt : PyVal) : PyVal :=
  let a := pyGet raw (.str snake) .none
  if pyTruthy a then a else pyGet raw (.str camel) dflt

/-- Model of `_parse_raw_span` (parser.py:140-174). -/
def parse_raw_span (raw resource_attrs : List (PyVal × PyVal)) : Except PyErr RawSpan := do
  let trace_id ← normalize_id (fieldFallback raw "trace_id" "traceId" (.str ""))
  let span_id ← normalize_id (fieldFallback raw "span_id" "spanId" (.str ""))
  let parent_span_id ← normalize_id (fieldFallback raw "parent_span_id" "parentSpanId" (.str ""))
  let name := pyGet raw (.str "name") (.str "")
  let kind := pyGet raw (.str "kind") (.str "")
  let start_nano := fieldFallback raw "start_time_unix_nano" "startTimeUnixNano" (.int 0)
  let end_nano := fieldFallback raw "end_time_unix_nano" "endTimeUnixNano" (.int 0)
  let start_time_unix_nano ← pyInt start_nano
  let end_time_unix_nano ← pyInt end_nano
  let attributes ← flatten_attributes (pyGet raw (.str "attributes") .none)
  let status :=
    match pyGet raw (.str "status") (.dict []) with
    | .dict d => d
    | _ => []
  let events :=
    match pyGet raw (.str "events") (.list []) with
    | .list l => l
    | _ => []
  .ok (RawSpan.mk trace_id span_id parent_span_id name kind
        start_time_unix_nano end_time_unix_nano
        attributes status events resource_attrs)

/-- Exceptions caught by the per-span handler in `parse_line`
(parser.py:133: `except (KeyError, TypeError, ValueError)`);
`json.JSONDecodeError` is a `ValueError` subclass. -/
def caughtBySpanHandler : PyErr → Bool
  | .keyError => true
  | .typeError => true
  | .valueError => true
  | .jsonDecodeError => true
  | _ => false

/-- Exceptions caught by the per-line handlers in `parse_stream` and
`parse_incremental` (`except (json.JSONDecodeError, ValueError)`). -/
def caughtByLineHandler : PyErr → Bool
  | .jsonDecodeError => true
  | .valueError => true
  | _ => false

/-- Innermost loop of `parse_line` (parser.py:127-135): non-dict raw spans
are skipped; a span whose construction raises KeyError/TypeError/ValueError
is skipped; any other exception propagates. -/
def processRawSpans (rl : List PyVal) (resource_attrs : List (PyVal × PyVal)) :
    Except PyErr (List RawSpan) :=
  match rl with
  | [] => .ok []
  | raw :: rest =>
    match raw with
    | .dict rd =>
      match parse_raw_span rd resource_attrs with
      | .ok span => do
        let s2 ← processRawSpans rest resource_attrs
        .ok (span :: s2)
      | .error e =>
        if caughtBySpanHandler e then processRawSpans rest resource_attrs
        else .error e
    | _ => processRawSpans rest resource_attrs

/-- Scope-span loop of `parse_line` (parser.py:120-135). -/
def processScopeSpans (ssl : List PyVal) (resource_attrs : List (PyVal × PyVal)) :
    Except PyErr (List RawSpan) :=
  match ssl with
  | [] => .ok []
  | ss :: rest =>
    match ss with
    | .dict ssd =>
      match pyGet ssd (.str "spans") (.list []) with
      | .list rl => do
        let s1 ← processRawSpans rl resource_attrs
        let s2 ← processScopeSpans rest resource_attrs
        .ok (s1 ++ s2)
      | _ => processScopeSpans rest resource_attrs
    | _ => processScopeSpans rest resource_attrs

/-- Resource-span loop of `parse_line` (parser.py:106-135): resource
attributes are flattened once per block (outside the per-span handler, so
an exception there propagates out of the line). -/
def processResourceSpans (rsl : List PyVal) : Except PyErr (List RawSpan) :=
  match rsl with
  | [] => .ok []
  | rs :: rest =>
    match rs with
    | .dict rsd => do
      let resource := pyGet rsd (.str "resource") (.dict [])
      let resource_attrs ← flatten_attributes
        (match resource with
         | .dict rd => pyGet rd (.str "attributes") .none
         | _ => .none)
      let scope_spans :=
        let a := pyGet rsd (.str "scope_spans") .none
        if pyTruthy a then a
        else
          let b := pyGet rsd (.str "scopeSpans") .none
          if pyTruthy b then b else .list []
      match scope_spans with
      | .list ssl => do
        let s1 ← processScopeSpans ssl resource_attrs
        let s2 ← processResourceSpans rest
        .ok (s1 ++ s2)
      | _ => processResourceSpans rest
    | _ => processResourceSpans rest

/-- Body of `parse_line` after `json.loads` (parser.py:97-137). -/
def parse_request (data : PyVal) : Except PyErr (List RawSpan) :=
  match data with
  | .dict d =>
    let rs :=
      match dictGet d (.str "resource_spans") with
      | some v => v
      | Option.none => pyGet d (.str "resourceSpans") .none
    match rs with
    | .list rsl => processResourceSpans rsl
    | _ => .error .valueError
  | _ => .error .valueError

/-- JSON insignificant whitespace (RFC 8259, as accepted by `json.loads`). -/
def isJsonWs (c : Char) : Bool :=
  c = ' ' || c = '\t' || c = '\n' || c = '\r'

/-- Skips JSON whitespace. -/
def skipJsonWs (cs : List Char) : List Char :=
  cs.dropWhile isJsonWs

/-- Reads one string body after the opening quote, handling the standard
escapes; `\u` takes four hex digits (surrogate pairing is not modelled:
each escape yields one scalar, invalid scalars fall back to the
replacement behaviour of `Char.ofNat`).  Control characters are rejected
as `json.loads` does in strict mode. -/
def jsonParseStringAux : List Char → List Char → Except PyErr (String × List Char)
  | acc, '"' :: rest => .ok (String.mk acc.reverse, rest)
  | acc, '\\' :: e :: rest =>
    match e, rest with
    | '"', r => jsonParseStringAux ('"' :: acc) r
    | '\\', r => jsonParseStringAux ('\\' :: acc) r
    | '/', r => jsonParseStringAux ('/' :: acc) r
    | 'b', r => jsonParseStringAux ('\x08' :: acc) r
    | 'f', r => jsonParseStringAux ('\x0c' :: acc) r
    | 'n', r => jsonParseStringAux ('\n' :: acc) r
    | 'r', r => jsonParseStringAux ('\r' :: acc) r
    | 't', r => jsonParseStringAux ('\t' :: acc) r
    | 'u', h1 :: h2 :: h3 :: h4 :: r =>
      let isHexChar : Char → Bool := fun c =>
        c.isDigit || ('a' ≤ c ∧ c ≤ 'f') || ('A' ≤ c ∧ c ≤ 'F')
      if isHexChar h1 && isHexChar h2 && isHexChar h3 && isHexChar h4 then
        let hv : Char → Nat := fun c =>
          if c.isDigit then c.toNat - 48
          else if 'a' ≤ c ∧ c ≤ 'f' then c.toNat - 87
          else c.toNat - 55
        jsonParseStringAux
          (Char.ofNat (((hv h1 * 16 + hv h2) * 16 + hv h3) * 16 + hv h4) :: acc) r
      else .error .jsonDecodeError
    | _, _ => .error .jsonDecodeError
  | acc, c :: rest =>
    if c.toNat < 32 then .error .jsonDecodeError
    else jsonParseStringAux (c :: acc) rest
  | _, [] => .error .jsonDecodeError

/-- Reads a JSON number.  JSON numbers are modelled as integers: a literal
with a fraction or exponent is rejected here; the claims never observe
fractional values, and every concrete input in this development uses
integer literals. -/
def jsonParseNumber (cs : List Char) : Except PyErr (PyVal × List Char) :=
  let signed : Bool × List Char :=
    match cs with
    | '-' :: rest => (true, rest)
    | rest => (false, rest)
  match signed.2 with
  | '0' :: rest =>
    match rest with
    | c :: _ =>
      if c.isDigit || c = '.' || c = 'e' || c = 'E' then .error .jsonDecodeError
      else .ok (.int 0, rest)
    | [] => .ok (.int 0, [])
  | c :: rest =>
    if c.isDigit then
      let digits := c :: rest.takeWhile (fun d => d.isDigit)
      let value : Nat := digits.foldl (fun a d => a * 10 + (d.toNat - 48)) 0
      let remaining := rest.dropWhile (fun d => d.isDigit)
      match remaining with
      | d :: _ =>
        if d = '.' || d = 'e' || d = 'E' then .error .jsonDecodeError
        else .ok (.int (if signed.1 then -(value : Int) else (value : Int)), remaining)
      | [] => .ok (.int (if signed.1 then -(value : Int) else (value : Int)), [])
    else .error .jsonDecodeError
  | [] => .error .jsonDecodeError

/-- Tests whether the expected characters are a prefix, returning the rest. -/
def expectChars : List Char → List Char → Option (List Char)
  | [], cs => some cs
  | e :: es, c :: cs => if c = e then expectChars es cs else Option.none
  | _ :: _, [] => Option.none

mutual
/-- Model of `json.loads` value parsing, fuelled for structural recursion
(each nesting level consumes at least one input character, so fuel larger
than the input length is never exhausted).  `NaN`/`Infinity`/`-Infinity`
are accepted as `json.loads` does by default. -/
def jsonParseValue : Nat → List Char → Except PyErr (PyVal × List Char)
  | 0, _ => .error .jsonDecodeError
  | fuel + 1, cs =>
    match skipJsonWs cs with
    | [] => .error .jsonDecodeError
    | c :: rest =>
      if c = '"' then
        (jsonParseStringAux [] rest).map (fun p => (.str p.1, p.2))
      else if c = '\x7b' then
        match skipJsonWs rest with
        | '\x7d' :: r2 => .ok (.dict [], r2)
        | r2 => jsonParseMembers fuel r2 []
      else if c = '[' then
        match skipJsonWs rest with
        | ']' :: r2 => .ok (.list [], r2)
        | r2 => jsonParseItems fuel r2 []
      else if c = 't' then
        match expectChars ['r', 'u', 'e'] rest with
        | some r => .ok (.bool true, r)
        | Option.none => .error .jsonDecodeError
      else if c = 'f' then
        match expectChars ['a', 'l', 's', 'e'] rest with
        | some r => .ok (.bool false, r)
        | Option.none => .error .jsonDecodeError
      else if c = 'n' then
        match expectChars ['u', 'l', 'l'] rest with
        | some r => .ok (.none, r)
        | Option.none => .error .jsonDecodeError
      else if c = 'N' then
        match expectChars ['a', 'N'] rest with
        | some r => .ok (.nan, r)
        | Option.none => .error .jsonDecodeError
      else if c = 'I' then
        match expectChars ['n', 'f', 'i', 'n', 'i', 't', 'y'] rest with
        | some r => .ok (.inf false, r)
        | Option.none => .error .jsonDecodeError
      else if c = '-' then
        match rest with
        | 'I' :: r1 =>
          match expectChars ['n', 'f', 'i', 'n', 'i', 't', 'y'] r1 with
          | some r => .ok (.inf true, r)
          | Option.none => .error .jsonDecodeError
        | _ => jsonParseNumber (c :: rest)
      else if c.isDigit then jsonParseNumber (c :: rest)
      else .error .jsonDecodeError

/-- Object members after the opening brace (non-empty case); duplicate keys
overwrite as `json.loads` does. -/
def jsonParseMembers : Nat → List Char → List (PyVal × PyVal) →
    Except PyErr (PyVal × List Char)
  | 0, _, _ => .error .jsonDecodeError
  | fuel + 1, cs, acc =>
    match skipJsonWs cs with
    | '"' :: r => do
      let (k, r2) ← jsonParseStringAux [] r
      match skipJsonWs r2 with
      | ':' :: r3 => do
        let (v, r4) ← jsonParseValue fuel r3
        let acc' := dictSet acc (.str k) v
        match skipJsonWs r4 with
        | ',' :: r5 => jsonParseMembers fuel r5 acc'
        | '\x7d' :: r5 => .ok (.dict acc', r5)
        | _ => .error .jsonDecodeError
      | _ => .error .jsonDecodeError
    | _ => .error .jsonDecodeError

/-- Array items after the opening bracket (non-empty case). -/
def jsonParseItems : Nat → List Char → List PyVal → Except PyErr (PyVal × List Char)
  | 0, _, _ => .error .jsonDecodeError
  | fuel + 1, cs, acc => do
    let (v, r) ← jsonParseValue fuel cs
    match skipJsonWs r with
    | ',' :: r2 => jsonParseItems fuel r2 (acc ++ [v])
    | ']' :: r2 => .ok (.list (acc ++ [v]), r2)
    | _ => .error .jsonDecodeError
end

/-- Model of `json.loads` on one line of text. -/
def json_loads_chars (cs : List Char) : Except PyErr PyVal := do
  let (v, rest) ← jsonParseValue (cs.length + 1) cs
  if skipJsonWs rest = [] then .ok v else .error .jsonDecodeError

/-- Model of `parse_line` (parser.py:88-137). -/
def parse_line (line : String) : Except PyErr (List RawSpan) := do
  let data ← json_loads_chars line.toList
  parse_request data

/-- Splits file content into the lines Python's file iteration yields, with
the line terminator dropped (the source strips each line immediately, so
only the stripped text matters). -/
def splitLines : List Char → List (List Char)
  | [] => []
  | c :: cs =>
    if c = '\n' then [] :: splitLines cs
    else
      match splitLines cs with
      | [] => [[c]]
      | l :: ls => (c :: l) :: ls

/-- Line loop shared by `parse_stream` (parser.py:183-197) and the body of
`parse_incremental` (parser.py:259-273): strip, skip blank lines, parse,
skip lines failing with `json.JSONDecodeError`/`ValueError` (with a
warning), propagate anything else. -/
def processLines : List (List Char) → Except PyErr (List RawSpan)
  | [] => .ok []
  | line :: rest =>
    let l := pyStripChars line
    if l.isEmpty then processLines rest
    else
      match parse_line (String.mk l) with
      | .ok spans => do
        let s2 ← processLines rest
        .ok (spans ++ s2)
      | .error e =>
        if caughtByLineHandler e then processLines rest
        else .error e

/-- Model of `parse_stream` (parser.py:177-197) on file content. -/
def parse_stream (content : List Char) : Except PyErr (List RawSpan) :=
  processLines (splitLines content)

/-- Model of `parse_file` (parser.py:200-216) for a non-stdin path; the gzip
branch feeds the identical line loop with the decompressed text, so both
are covered by one content-level function. -/
def parse_file (content : List Char) : Except PyErr (List RawSpan) :=
  parse_stream content

/-- Model of `parse_incremental` (parser.py:217-275) for a non-stdin path:
seek to the byte offset, run the same line loop on the remaining text, and
report the end-of-file position (`f.tell()` after reading everything;
seeking past the end reads nothing and reports the requested offset). -/
def parse_incremental (content : List Char) (offset : Nat) :
    Except PyErr (List RawSpan × Nat) :=
  (processLines (splitLines (content.drop offset))).map
    (fun spans => (spans, max offset content.length))

example : json_loads_chars "null".toList = .ok .none := by decide
example :
    json_loads_chars "\x7b\"a\": [1, -2]\x7d".toList =
      .ok (.dict [(.str "a", .list [.int 1, .int (-2)])]) := by decide
example : json_loads_chars "\x7b".toList = .error .jsonDecodeError := by decide

/-- Fold step of `group_by_trace` (tree.py:21-26): `setdefault` keeps the
insertion order of first key occurrence and appends to the group. -/
def addToGroup : List (String × List RawSpan) → RawSpan → List (String × List RawSpan)
  | [], s => [(s.trace_id, [s])]
  | (t, l) :: rest, s =>
    if t = s.trace_id then (t, l ++ [s]) :: rest else (t, l) :: addToGroup rest s

/-- Model of `group_by_trace` (tree.py:21-26). -/
def group_by_trace (spans : List RawSpan) : List (String × List RawSpan) :=
  spans.foldl addToGroup []

/-- Node-construction fold of `build_tree` (tree.py:48-57): one node per
distinct `span_id`, first occurrence kept (duplicates dropped with a
warning). -/
def addNode (nodes : List (String × RawSpan)) (s : RawSpan) : List (String × RawSpan) :=
  if (nodes.map Prod.fst).contains s.span_id then nodes else nodes ++ [(s.span_id, s)]

/-- The per-group node dict of `build_tree`, keyed by span id. -/
def buildNodes (trace_spans : List RawSpan) : List (String × RawSpan) :=
  trace_spans.foldl addNode []

/-- Keys of the node dict. -/
def nodeIds (nodes : List (String × RawSpan)) : List String :=
  nodes.map Prod.fst

/-- The linking test of `build_tree` (tree.py:60-68): a span is attached to
the node `pid` of its group exactly when its `parent_span_id` is non-empty
and present among the group's span ids; otherwise it becomes a root. -/
def attachedParent (nodes : List (String × RawSpan)) (s : RawSpan) : Option String :=
  if s.parent_span_id ≠ "" ∧ (nodeIds nodes).contains s.parent_span_id then
    some s.parent_span_id
  else Option.none

/-- Children of node `pid` in linking order (the iteration order over
`nodes.values()`, i.e. node-insertion order), before sorting. -/
def childrenUnsorted (nodes : List (String × RawSpan)) (pid : String) : List RawSpan :=
  (nodes.filter (fun e => attachedParent nodes e.2 == some pid)).map Prod.snd

/-- Roots of one trace group in linking order, before the final sort. -/
def groupRootSpans (nodes : List (String × RawSpan)) : List RawSpan :=
  (nodes.filter (fun e => (attachedParent nodes e.2).isNone)).map Prod.snd

/-- Stable insertion of a span into a start-time-sorted list: the new span
goes before the first element with a key not smaller than its own only when
strictly required, i.e. it lands after every element with a strictly
smaller key and before the first element with a greater-or-equal key. -/
def insertByStart (x : RawSpan) : List RawSpan → List RawSpan
  | [] => [x]
  | y :: ys =>
    if x.start_time_unix_nano ≤ y.start_time_unix_nano then x :: y :: ys
    else y :: insertByStart x ys

/-- Model of Python's stable `list.sort(key=start_time_unix_nano)`
(tree.py:72 and tree.py:75).  A stable sort is extensionally unique, so
this stable insertion sort computes exactly what Timsort computes. -/
def sortByStart (l : List RawSpan) : List RawSpan :=
  l.foldr insertByStart []

/-- One trace group of the built forest, in the arena representation the
spec recommends for the cyclic-capable parent/child links: the node dict,
each node's (sorted) children, and the group's roots.  The `parent`
back-reference of the source is recoverable as `attachedParent` and is
never read by the folding code. -/
structure GroupTree where
  trace_id : String
  nodes : List (String × RawSpan)
  children : List (String × List RawSpan)
  rootSpans : List RawSpan
deriving DecidableEq

/-- Builds one trace group (the body of the outer loop of `build_tree`). -/
def mkGroupTree (t : String) (trace_spans : List RawSpan) : GroupTree :=
  let nodes := buildNodes trace_spans
  { trace_id := t
    nodes := nodes
    children := nodes.map (fun e => (e.1, sortByStart (childrenUnsorted nodes e.1)))
    rootSpans := groupRootSpans nodes }

/-- Output of `build_tree` (tree.py:29-76): the per-group arenas plus the
merged root list, sorted by start time. -/
structure BuiltForest where
  groups : List GroupTree
  roots : List RawSpan
deriving DecidableEq

/-- Model of `build_tree` (tree.py:29-76). -/
def build_tree (spans : List RawSpan) : BuiltForest :=
  if spans.isEmpty then { groups := [], roots := [] }
  else
    let groups := (group_by_trace spans).map (fun g => mkGroupTree g.1 g.2)
    { groups := groups
      roots := sortByStart (groups.map GroupTree.rootSpans).flatten }

/-- Looks a node up by span id in a group's node dict. -/
def lookupNode : List (String × RawSpan) → String → Option RawSpan
  | [], _ => Option.none
  | (k, v) :: rest, id => if k = id then some v else lookupNode rest id

/-- The parent edge of the built structure: from a node's id to the id it
was attached to, if any. -/
def parentOf (nodes : List (String × RawSpan)) (id : String) : Option String :=
  (lookupNode nodes id).bind (fun s => attachedParent nodes s)

/-- Iterated parent steps. -/
def iterParent (nodes : List (String × RawSpan)) : Nat → String → Option String
  | 0, id => some id
  | k + 1, id => (parentOf nodes id).bind (iterParent nodes k)

/-- A node is part of the forest returned by `build_tree` exactly when its
ancestor chain ends at a root: the returned value is the root list, and
children are reached from their parents. -/
inductive ReachesRoot (nodes : List (String × RawSpan)) : String → Prop where
  | root (id : String) (s : RawSpan) :
      lookupNode nodes id = some s → attachedParent nodes s = Option.none →
      ReachesRoot nodes id
  | step (id : String) (s : RawSpan) (p : String) :
      lookupNode nodes id = some s → attachedParent nodes s = some p →
      ReachesRoot nodes p → ReachesRoot nodes id

/-- Span classification result (rf_model.py:13-18). -/
inductive SpanType where
  | SUITE
  | TEST
  | KEYWORD
  | SIGNAL
  | GENERIC
deriving DecidableEq, Repr

/-- Robot Framework status (rf_model.py:21-25). -/
inductive Status where
  | PASS
  | FAIL
  | SKIP
  | NOT_RUN
deriving DecidableEq, Repr

/-- Model of `classify_span` (rf_model.py:110-124): first match wins in the
order SUITE, TEST, KEYWORD, SIGNAL, GENERIC. -/
def classify_span (span : RawSpan) : SpanType :=
  let attrs := span.attributes
  if (dictGet attrs (.str "rf.suite.name")).isSome then .SUITE
  else if (dictGet attrs (.str "rf.test.name")).isSome then .TEST
  else if (dictGet attrs (.str "rf.keyword.name")).isSome then .KEYWORD
  else if (dictGet attrs (.str "rf.signal")).isSome then .SIGNAL
  else .GENERIC

/-- Model of `_STATUS_MAP.get` (rf_model.py:101-107): a case-sensitive map
from the five recognised strings; any other value (or non-string) maps to
nothing. -/
def statusMapLookup : PyVal → Option Status
  | .str "PASS" => some .PASS
  | .str "FAIL" => some .FAIL
  | .str "SKIP" => some .SKIP
  | .str "NOT_RUN" => some .NOT_RUN
  | .str "NOT RUN" => some .NOT_RUN
  | _ => Option.none

/-- Model of `extract_status` (rf_model.py:127-141): unknown truthy values
warn (side effect not modelled) and default to NOT_RUN; absence defaults
silently. -/
def extract_status (span : RawSpan) : Status :=
  let raw := pyGet span.attributes (.str "rf.status") (.str "")
  match statusMapLookup raw with
  | some st => st
  | Option.none => .NOT_RUN

/-- Model of `_elapsed_ms` (rf_model.py:144-146); exact rational division
stands in for Python float division (no claim observes the value). -/
def elapsed_ms (span : RawSpan) : ℚ :=
  ((span.end_time_unix_nano - span.start_time_unix_nano : Int) : ℚ) / 1000000

/-- A node of the span tree as the interpreter walks it (tree.py:12-18);
the `parent` back-reference is omitted because the folding code never
reads it. -/
inductive SpanNode where
  | mk (span : RawSpan) (children : List SpanNode)

/-- The wrapped span of a node. -/
def SpanNode.spanOf : SpanNode → RawSpan
  | .mk s _ => s

/-- The children of a node. -/
def SpanNode.childrenOf : SpanNode → List SpanNode
  | .mk _ c => c

/-- Model of `RFKeyword` (rf_model.py:52-62); `name` and `keyword_type`
carry the unconverted attribute values just as the source stores them. -/
inductive RFKeyword where
  | mk (name keyword_type : PyVal) (args : String) (status : Status)
       (start_time end_time : Int) (elapsed_time : ℚ) (id : String)
       (children : List RFKeyword)

/-- The span id recorded in a folded keyword. -/
def RFKeyword.idOf : RFKeyword → String
  | .mk _ _ _ _ _ _ _ id _ => id

/-- The nested keywords of a folded keyword. -/
def RFKeyword.childrenOf : RFKeyword → List RFKeyword
  | .mk _ _ _ _ _ _ _ _ c => c

/-- Model of `RFTest` (rf_model.py:40-49). -/
structure RFTest where
  name : PyVal
  id : String
  status : Status
  start_time : Int
  end_time : Int
  elapsed_time : ℚ
  keywords : List RFKeyword
  tags : List PyVal

mutual
/-- Model of `RFSuite` (rf_model.py:28-37); the `RFSuite | RFTest` union of
the `children` field is the tagged sum `SuiteChild`. -/
inductive RFSuite where
  | mk (name : PyVal) (id : String) (source : String) (status : Status)
       (start_time end_time : Int) (elapsed_time : ℚ)
       (children : List SuiteChild)

/-- One element of `RFSuite.children`. -/
inductive SuiteChild where
  | suite (s : RFSuite)
  | test (t : RFTest)
end

/-- The children of a folded suite. -/
def RFSuite.childrenOf : RFSuite → List SuiteChild
  | .mk _ _ _ _ _ _ _ c => c

/-- The display name of a folded suite. -/
def RFSuite.nameOf : RFSuite → PyVal
  | .mk n _ _ _ _ _ _ _ => n

mutual
/-- Model of `_build_keyword` (rf_model.py:149-165). -/
def build_keyword : SpanNode → RFKeyword
  | .mk span children =>
    RFKeyword.mk
      (pyGet span.attributes (.str "rf.keyword.name") span.name)
      (pyGet span.attributes (.str "rf.keyword.type") (.str "KEYWORD"))
      (pyStr (pyGet span.attributes (.str "rf.keyword.args") (.str "")))
      (extract_status span)
      span.start_time_unix_nano
      span.end_time_unix_nano
      (elapsed_ms span)
      span.span_id
      (build_keyword_list children)

/-- The `[_build_keyword(c) for c in node.children if classify_span(c.span)
== SpanType.KEYWORD]` comprehension shared by `_build_keyword` and
`_build_test`. -/
def build_keyword_list : List SpanNode → List RFKeyword
  | [] => []
  | c :: cs =>
    (if classify_span c.spanOf = .KEYWORD then [build_keyword c] else []) ++
      build_keyword_list cs
end

/-- Model of `_build_test` (rf_model.py:168-185). -/
def build_test : SpanNode → RFTest
  | .mk span children =>
    { name := pyGet span.attributes (.str "rf.test.name") span.name
      id := pyStr (pyGet span.attributes (.str "rf.test.id") (.str ""))
      status := extract_status span
      start_time := span.start_time_unix_nano
      end_time := span.end_time_unix_nano
      elapsed_time := elapsed_ms span
      keywords := build_keyword_list children
      tags :=
        match pyGet span.attributes (.str "rf.test.tags") (.list []) with
        | .list l => l
        | _ => [] }

mutual
/-- Model of `_build_suite` (rf_model.py:188-209): keyword, signal and
generic children are dropped at suite level. -/
def build_suite : SpanNode → RFSuite
  | .mk span children =>
    RFSuite.mk
      (pyGet span.attributes (.str "rf.suite.name") span.name)
      (pyStr (pyGet span.attributes (.str "rf.suite.id") (.str "")))
      (pyStr (pyGet span.attributes (.str "rf.suite.source") (.str "")))
      (extract_status span)
      span.start_time_unix_nano
      span.end_time_unix_nano
      (elapsed_ms span)
      (build_suite_children children)

/-- The suite-children loop of `_build_suite` (rf_model.py:192-199). -/
def build_suite_children : List SpanNode → List SuiteChild
  | [] => []
  | c :: cs =>
    (match classify_span c.spanOf with
     | .SUITE => [SuiteChild.suite (build_suite c)]
     | .TEST => [SuiteChild.test (build_test c)]
     | _ => []) ++ build_suite_children cs
end

/-- Componentwise sum of (total, passed, failed, skipped) counters. -/
def addQuad (a b : Nat × Nat × Nat × Nat) : Nat × Nat × Nat × Nat :=
  (a.1 + b.1, a.2.1 + b.2.1, a.2.2.1 + b.2.2.1, a.2.2.2 + b.2.2.2)

mutual
/-- Model of `_count_tests` (rf_model.py:259-277): every test counts toward
`total`; only PASS/FAIL/SKIP count toward the respective bucket, so a
NOT_RUN test contributes to `total` alone. -/
def count_tests : List SuiteChild → Nat × Nat × Nat × Nat
  | [] => (0, 0, 0, 0)
  | .test t :: rest =>
    addQuad
      (1,
       (if t.status = .PASS then 1 else 0),
       (if t.status = .FAIL then 1 else 0),
       (if t.status = .SKIP then 1 else 0))
      (count_tests rest)
  | .suite su :: rest => addQuad (count_tests_suite su) (count_tests rest)

/-- Recursion of `_count_tests` into a nested suite's children. -/
def count_tests_suite : RFSuite → Nat × Nat × Nat × Nat
  | .mk _ _ _ _ _ _ _ children => count_tests children
end

/-- Model of `SuiteStatistics` (rf_model.py:71-78). -/
structure SuiteStatistics where
  suite_name : PyVal
  total : Nat
  passed : Nat
  failed : Nat
  skipped : Nat

/-- Model of `RunStatistics` (rf_model.py:80-87). -/
structure RunStatistics where
  total_tests : Nat
  passed : Nat
  failed : Nat
  skipped : Nat
  total_duration_ms : ℚ
  suite_stats : List SuiteStatistics

/-- Model of `_collect_suite_stats` (rf_model.py:280-296). -/
def collect_suite_stats (suites : List RFSuite) : List SuiteStatistics :=
  suites.map (fun su =>
    let q := count_tests su.childrenOf
    { suite_name := su.nameOf
      total := q.1
      passed := q.2.1
      failed := q.2.2.1
      skipped := q.2.2.2 })

/-- Sums `_count_tests` over the top-level suites' children, in order. -/
def sumSuiteCounts : List RFSuite → Nat × Nat × Nat × Nat
  | [] => (0, 0, 0, 0)
  | su :: rest => addQuad (count_tests su.childrenOf) (sumSuiteCounts rest)

/-- Model of `compute_statistics` (rf_model.py:299-322). -/
def compute_statistics (suites : List RFSuite) (start_time end_time : Int) :
    RunStatistics :=
  let q := sumSuiteCounts suites
  { total_tests := q.1
    passed := q.2.1
    failed := q.2.2.1
    skipped := q.2.2.2
    total_duration_ms :=
      if start_time < end_time then ((end_time - start_time : Int) : ℚ) / 1000000 else 0
    suite_stats := collect_suite_stats suites }

/-- Presence of an attribute key on a span, as `classify_span` tests it. -/
def hasAttr (span : RawSpan) (k : String) : Prop :=
  (dictGet span.attributes (.str k)).isSome = true

instance (span : RawSpan) (k : String) : Decidable (hasAttr span k) := by
  unfold hasAttr; infer_instance

mutual
/-- Tests counted in `total` but in none of the passed/failed/skipped buckets
by `_count_tests`, i.e. the NOT_RUN tests of a suite forest.  This is
spec-side vocabulary for the amended statistics identity, not source code. -/
def count_not_run : List SuiteChild → Nat
  | [] => 0
  | .test t :: rest => (if t.status = .NOT_RUN then 1 else 0) + count_not_run rest
  | .suite su :: rest => count_not_run_suite su + count_not_run rest

/-- Recursion of `count_not_run` into a nested suite. -/
def count_not_run_suite : RFSuite → Nat
  | .mk _ _ _ _ _ _ _ children => count_not_run children
end

/-- Sum of `count_not_run` over the top-level suites' children. -/
def countNotRunSuites : List RFSuite → Nat
  | [] => 0
  | su :: rest => count_not_run su.childrenOf + countNotRunSuites rest

mutual
/-- All span ids occurring in a folded keyword tree (the keyword itself and
every nested keyword), spec-side vocabulary for C7. -/
def kwIds : RFKeyword → List String
  | .mk _ _ _ _ _ _ _ id children => id :: kwIdsList children

/-- `kwIds` over a keyword list. -/
def kwIdsList : List RFKeyword → List String
  | [] => []
  | k :: ks => kwIds k ++ kwIdsList ks
end

/-- A keyword-classified chain from a node down to a descendant: every node
on the path below the start, including the endpoint, is classified
KEYWORD.  This is the spec's notion of which nested keywords survive
folding: classification is re-checked at every nesting level. -/
inductive KwChain : SpanNode → SpanNode → Prop where
  | direct (n c : SpanNode) :
      c ∈ n.childrenOf → classify_span c.spanOf = .KEYWORD → KwChain n c
  | nested (n m c : SpanNode) :
      KwChain n m → c ∈ m.childrenOf → classify_span c.spanOf = .KEYWORD → KwChain n c

/-- Ascending order by `start_time_unix_nano`. -/
def SortedByStart (l : List RawSpan) : Prop :=
  l.Pairwise (fun a b => a.start_time_unix_nano ≤ b.start_time_unix_nano)

/-- C9: `classify_span` is a pure, deterministic function of a span's
attributes with first-match-wins priority SUITE > TEST > KEYWORD > SIGNAL
> GENERIC; a span carrying both `rf.signal` and `rf.test.name` but no
`rf.suite.name` is classified TEST, not SIGNAL. -/
theorem C9_classify_priority :
    (∀ s1 s2 : RawSpan, s1.attributes = s2.attributes →
      classify_span s1 = classify_span s2) ∧
    (∀ span : RawSpan,
      (classify_span span = .SUITE ↔ hasAttr span "rf.suite.name") ∧
      (classify_span span = .TEST ↔
        ¬ hasAttr span "rf.suite.name" ∧ hasAttr span "rf.test.name") ∧
      (classify_span span = .KEYWORD ↔
        ¬ hasAttr span "rf.suite.name" ∧ ¬ hasAttr span "rf.test.name" ∧
        hasAttr span "rf.keyword.name") ∧
      (classify_span span = .SIGNAL ↔
        ¬ hasAttr span "rf.suite.name" ∧ ¬ hasAttr span "rf.test.name" ∧
        ¬ hasAttr span "rf.keyword.name" ∧ hasAttr span "rf.signal")) ∧
    (∀ span : RawSpan, hasAttr span "rf.test.name" → hasAttr span "rf.signal" →
      ¬ hasAttr span "rf.suite.name" →
      classify_span span = .TEST ∧ classify_span span ≠ .SIGNAL) := by
  refine ⟨?_, ?_, ?_⟩
  · intro s1 s2 h
    unfold classify_span
    rw [h]
  · intro span
    simp only [classify_span, hasAttr]
    refine ⟨?_, ?_, ?_, ?_⟩ <;> split_ifs <;> simp_all
  · intro span ht hs hns
    simp only [hasAttr] at ht hs hns
    simp only [classify_span, hasAttr]
    split_ifs
    simp_all

/-- C9 witness: a concrete span carrying both `rf.signal` and `rf.test.name`
is classified TEST. -/
theorem C9_witness :
    classify_span (RawSpan.mk "t" "a" "" (.str "") (.str "") 0 0
        [(.str "rf.signal", .str "SIGINT"), (.str "rf.test.name", .str "T1")]
        [] [] []) = .TEST ∧
    classify_span (RawSpan.mk "t" "a" "" (.str "") (.str "") 0 0
        [(.str "rf.signal", .str "SIGINT"), (.str "rf.test.name", .str "T1")]
        [] [] []) ≠ .SIGNAL :=
  C9_classify_priority.2.2
    (RawSpan.mk "t" "a" "" (.str "") (.str "") 0 0
      [(.str "rf.signal", .str "SIGINT"), (.str "rf.test.name", .str "T1")]
      [] [] [])
    (by decide) (by decide) (by decide)

/-- C10: the snake/camel field fallback in `_parse_raw_span` uses truthiness,
not presence: whenever the snake_case field is present but falsy, the
camelCase spelling wins; concretely, a raw span with `trace_id` set to the
empty string and `traceId` set to `"AB"` parses to trace id `"ab"`, and one
with `start_time_unix_nano` 0 and `startTimeUnixNano` 5 parses to start
time 5. -/
theorem C10_truthiness_fallback :
    (∀ (raw : List (PyVal × PyVal)) (snake camel : String) (dflt v : PyVal),
      dictGet raw (.str snake) = some v → pyTruthy v = false →
      fieldFallback raw snake camel dflt = pyGet raw (.str camel) dflt) ∧
    parse_raw_span [(.str "trace_id", .str ""), (.str "traceId", .str "AB")] [] =
      .ok (RawSpan.mk "ab" "" "" (.str "") (.str "") 0 0 [] [] [] []) ∧
    parse_raw_span
        [(.str "start_time_unix_nano", .int 0), (.str "startTimeUnixNano", .int 5)] [] =
      .ok (RawSpan.mk "" "" "" (.str "") (.str "") 5 0 [] [] [] []) := by
  refine ⟨?_, by decide, by decide⟩
  intro raw snake camel dflt v hget hfalsy
  unfold fieldFallback pyGet
  rw [hget]
  simp [hfalsy]

/-- C10 witness: the fallback equation instantiated at the concrete raw span
of the claim. -/
theorem C10_witness :
    fieldFallback [(.str "trace_id", .str ""), (.str "traceId", .str "AB")]
        "trace_id" "traceId" (.str "") =
      pyGet [(.str "trace_id", .str ""), (.str "traceId", .str "AB")]
        (.str "traceId") (.str "") :=
  C10_truthiness_fallback.1
    [(.str "trace_id", .str ""), (.str "traceId", .str "AB")]
    "trace_id" "traceId" (.str "") (.str "") (by decide) (by decide)

theorem count_tests_split :
    ∀ (n : Nat) (ch : List SuiteChild), sizeOf ch ≤ n →
      (count_tests ch).2.1 + (count_tests ch).2.2.1 + (count_tests ch).2.2.2 +
        count_not_run ch = (count_tests ch).1 := by
  intro n
  induction n with
  | zero =>
    intro ch h
    cases ch with
    | nil => simp [count_tests, count_not_run]
    | cons c rest => simp at h
  | succ n ih =>
    intro ch h
    match ch with
    | [] => simp [count_tests, count_not_run]
    | .test t :: rest =>
      have hsz : sizeOf rest ≤ n := by simp at h; omega
      have hr := ih rest hsz
      simp only [count_tests, count_not_run, addQuad]
      rcases htst : t.status <;> (simp [htst]; try omega)
    | .suite su :: rest =>
      obtain ⟨nm, i, src, st, t0, t1, el, children⟩ := su
      have hszr : sizeOf rest ≤ n := by simp at h; omega
      have hszc : sizeOf children ≤ n := by simp at h; omega
      have hr := ih rest hszr
      have hc := ih children hszc
      simp only [count_tests, count_tests_suite, count_not_run, count_not_run_suite, addQuad]
      omega

/-- C3 (amended): for every suite forest,
`passed + failed + skipped + (number of NOT_RUN tests) == total_tests`;
equivalently the claimed identity `passed + failed + skipped == total_tests`
holds exactly when no test carries status NOT_RUN (see the counterexample
for a NOT_RUN test breaking the original identity). -/
theorem C3_statistics_identity :
    ∀ (suites : List RFSuite) (start_time end_time : Int),
      (compute_statistics suites start_time end_time).passed +
        (compute_statistics suites start_time end_time).failed +
        (compute_statistics suites start_time end_time).skipped +
        countNotRunSuites suites =
      (compute_statistics suites start_time end_time).total_tests := by
  intro suites t0 t1
  simp only [compute_statistics]
  induction suites with
  | nil => simp [sumSuiteCounts, countNotRunSuites]
  | cons su rest ih =>
    have hsu := count_tests_split (sizeOf su.childrenOf) su.childrenOf (le_refl _)
    simp only [sumSuiteCounts, countNotRunSuites, addQuad] at *
    omega

/-- C3 counterexample: a suite containing a single NOT_RUN test has
`total_tests = 1` but `passed + failed + skipped = 0`, so the claimed
identity fails when tests may carry any of the four Status values. -/
theorem C3_counterexample :
    ¬ ((compute_statistics
          [RFSuite.mk (.str "s") "" "" .PASS 0 0 0
            [SuiteChild.test (RFTest.mk (.str "t") "" .NOT_RUN 0 0 0 [] [])]] 0 0).passed +
        (compute_statistics
          [RFSuite.mk (.str "s") "" "" .PASS 0 0 0
            [SuiteChild.test (RFTest.mk (.str "t") "" .NOT_RUN 0 0 0 [] [])]] 0 0).failed +
        (compute_statistics
          [RFSuite.mk (.str "s") "" "" .PASS 0 0 0
            [SuiteChild.test (RFTest.mk (.str "t") "" .NOT_RUN 0 0 0 [] [])]] 0 0).skipped =
        (compute_statistics
          [RFSuite.mk (.str "s") "" "" .PASS 0 0 0
            [SuiteChild.test (RFTest.mk (.str "t") "" .NOT_RUN 0 0 0 [] [])]] 0 0).total_tests) := by
  decide

/-- Tests whether a value is a Python dict. -/
def isDictVal : PyVal → Bool
  | .dict _ => true
  | _ => false

mutual
/-- Value objects on which `_extract_value` provably raises nothing: the
branch that fires (in source order) either needs no conversion, or its
numeric conversion succeeds, and nested `values` lists are well formed.
This is the spec-side domain of the amended totality claim. -/
inductive GoodVO : PyVal → Prop where
  | strTag (d : List (PyVal × PyVal)) (v : PyVal) :
      dictGet d (.str "string_value") = some v → GoodVO (.dict d)
  | intTag (d : List (PyVal × PyVal)) (v : PyVal) (n : Int) :
      dictGet d (.str "string_value") = Option.none →
      dictGet d (.str "int_value") = some v →
      pyInt v = .ok n → GoodVO (.dict d)
  | dblTag (d : List (PyVal × PyVal)) (v w : PyVal) :
      dictGet d (.str "string_value") = Option.none →
      dictGet d (.str "int_value") = Option.none →
      dictGet d (.str "double_value") = some v →
      pyFloat v = .ok w → GoodVO (.dict d)
  | boolTag (d : List (PyVal × PyVal)) (v : PyVal) :
      dictGet d (.str "string_value") = Option.none →
      dictGet d (.str "int_value") = Option.none →
      dictGet d (.str "double_value") = Option.none →
      dictGet d (.str "bool_value") = some v → GoodVO (.dict d)
  | arrNotDict (d : List (PyVal × PyVal)) (av : PyVal) :
      dictGet d (.str "string_value") = Option.none →
      dictGet d (.str "int_value") = Option.none →
      dictGet d (.str "double_value") = Option.none →
      dictGet d (.str "bool_value") = Option.none →
      dictGet d (.str "array_value") = some av →
      isDictVal av = false → GoodVO (.dict d)
  | arrNoValues (d ad : List (PyVal × PyVal)) :
      dictGet d (.str "string_value") = Option.none →
      dictGet d (.str "int_value") = Option.none →
      dictGet d (.str "double_value") = Option.none →
      dictGet d (.str "bool_value") = Option.none →
      dictGet d (.str "array_value") = some (.dict ad) →
      dictGet ad (.str "values") = Option.none → GoodVO (.dict d)
  | arrList (d ad : List (PyVal × PyVal)) (vs : List PyVal) :
      dictGet d (.str "string_value") = Option.none →
      dictGet d (.str "int_value") = Option.none →
      dictGet d (.str "double_value") = Option.none →
      dictGet d (.str "bool_value") = Option.none →
      dictGet d (.str "array_value") = some (.dict ad) →
      dictGet ad (.str "values") = some (.list vs) →
      GoodElems vs → GoodVO (.dict d)
  | kvNotDict (d : List (PyVal × PyVal)) (kv : PyVal) :
      dictGet d (.str "string_value") = Option.none →
      dictGet d (.str "int_value") = Option.none →
      dictGet d (.str "double_value") = Option.none →
      dictGet d (.str "bool_value") = Option.none →
      dictGet d (.str "array_value") = Option.none →
      dictGet d (.str "kvlist_value") = some kv →
      isDictVal kv = false → GoodVO (.dict d)
  | kvNoValues (d kd : List (PyVal × PyVal)) :
      dictGet d (.str "string_value") = Option.none →
      dictGet d (.str "int_value") = Option.none →
      dictGet d (.str "double_value") = Option.none →
      dictGet d (.str "bool_value") = Option.none →
      dictGet d (.str "array_value") = Option.none →
      dictGet d (.str "kvlist_value") = some (.dict kd) →
      dictGet kd (.str "values") = Option.none → GoodVO (.dict d)
  | kvList (d kd : List (PyVal × PyVal)) (kvs : List PyVal) :
      dictGet d (.str "string_value") = Option.none →
      dictGet d (.str "int_value") = Option.none →
      dictGet d (.str "double_value") = Option.none →
      dictGet d (.str "bool_value") = Option.none →
      dictGet d (.str "array_value") = Option.none →
      dictGet d (.str "kvlist_value") = some (.dict kd) →
      dictGet kd (.str "values") = some (.list kvs) →
      GoodKvs kvs → GoodVO (.dict d)
  | bytesTag (d : List (PyVal × PyVal)) (v : PyVal) :
      dictGet d (.str "string_value") = Option.none →
      dictGet d (.str "int_value") = Option.none →
      dictGet d (.str "double_value") = Option.none →
      dictGet d (.str "bool_value") = Option.none →
      dictGet d (.str "array_value") = Option.none →
      dictGet d (.str "kvlist_value") = Option.none →
      dictGet d (.str "bytes_value") = some v → GoodVO (.dict d)
  | noTag (d : List (PyVal × PyVal)) :
      dictGet d (.str "string_value") = Option.none →
      dictGet d (.str "int_value") = Option.none →
      dictGet d (.str "double_value") = Option.none →
      dictGet d (.str "bool_value") = Option.none →
      dictGet d (.str "array_value") = Option.none →
      dictGet d (.str "kvlist_value") = Option.none →
      dictGet d (.str "bytes_value") = Option.none → GoodVO (.dict d)

/-- Well-formed elements of an `array_value.values` list. -/
inductive GoodElems : List PyVal → Prop where
  | nil : GoodElems []
  | cons (v : PyVal) (vs : List PyVal) : GoodVO v → GoodElems vs → GoodElems (v :: vs)

/-- Well-formed elements of a `kvlist_value.values` list: each is a dict
whose `value` entry, when present, is a well-formed value object. -/
inductive GoodKvs : List PyVal → Prop where
  | nil : GoodKvs []
  | consNoVal (kvd : List (PyVal × PyVal)) (rest : List PyVal) :
      dictGet kvd (.str "value") = Option.none →
      GoodKvs rest → GoodKvs (.dict kvd :: rest)
  | consVal (kvd : List (PyVal × PyVal)) (w : PyVal) (rest : List PyVal) :
      dictGet kvd (.str "value") = some w →
      GoodVO w → GoodKvs rest → GoodKvs (.dict kvd :: rest)
end

theorem pyValSize_pos : ∀ v : PyVal, 1 ≤ pyValSize v := by
  intro v
  cases v <;> simp [pyValSize]

theorem pyValSizeList_pos : ∀ l : List PyVal, 1 ≤ pyValSizeList l := by
  intro l
  cases l <;> simp [pyValSizeList] <;> omega

theorem pyValSizeDict_pos : ∀ d : List (PyVal × PyVal), 1 ≤ pyValSizeDict d := by
  intro d
  rcases d with _ | ⟨⟨k, v⟩, rest⟩ <;> simp [pyValSizeDict] <;> omega

theorem pyValSize_dictGet {d : List (PyVal × PyVal)} {k v : PyVal}
    (h : dictGet d k = some v) : pyValSize v < pyValSizeDict d := by
  induction d with
  | nil => simp [dictGet] at h
  | cons e rest ih =>
    obtain ⟨ek, ev⟩ := e
    simp only [dictGet] at h
    split at h
    · cases h
      have := pyValSize_pos ek
      simp [pyValSizeDict]
      omega
    · have := ih h
      have := pyValSize_pos ek
      have := pyValSize_pos ev
      simp [pyValSizeDict]
      omega

theorem pyValSize_mem_list {vs : List PyVal} {v : PyVal}
    (h : v ∈ vs) : pyValSize v < pyValSizeList vs := by
  induction vs with
  | nil => simp at h
  | cons x rest ih =>
    rcases List.mem_cons.mp h with h1 | h1
    · subst h1
      have := pyValSizeList_pos rest
      simp [pyValSizeList]
      omega
    · have := ih h1
      have := pyValSize_pos x
      simp [pyValSizeList]
      omega

theorem extractValueFuel_empty_dict (m : Nat) :
    extractValueFuel (m + 1) (.dict []) = .ok .none := by
  simp [extractValueFuel, dictGet]

theorem except_map_ok {ε α β : Type} (f : α → β) (a : α) :
    Except.map f (Except.ok a : Except ε α) = .ok (f a) := rfl

theorem except_bind_ok {ε α β : Type} (a : α) (f : α → Except ε β) :
    (Except.ok a >>= f) = f a := rfl

theorem except_bind_err {ε α β : Type} (e : ε) (f : α → Except ε β) :
    ((Except.error e : Except ε α) >>= f) = Except.error e := rfl

theorem extract_good_ok :
    ∀ fuel : Nat,
      (∀ vo, GoodVO vo → pyValSize vo < fuel →
        ∃ v, extractValueFuel fuel vo = .ok v) ∧
      (∀ vs, GoodElems vs → pyValSizeList vs < fuel →
        ∃ l, extractListFuel fuel vs = .ok l) ∧
      (∀ kvs acc, GoodKvs kvs → pyValSizeList kvs < fuel →
        ∃ r, extractKvFuel fuel kvs acc = .ok r) := by
  intro fuel
  induction fuel with
  | zero =>
    refine ⟨?_, ?_, ?_⟩
    · intro vo _ hsz; have := pyValSize_pos vo; omega
    · intro vs _ hsz; have := pyValSizeList_pos vs; omega
    · intro kvs _ _ hsz; have := pyValSizeList_pos kvs; omega
  | succ n ih =>
    obtain ⟨ihv, ihl, ihk⟩ := ih
    refine ⟨?_, ?_, ?_⟩
    · intro vo hg hsz
      cases hg with
      | strTag d v h1 =>
        exact ⟨v, by simp [extractValueFuel, except_map_ok, except_bind_ok, h1]⟩
      | intTag d v m h1 h2 hcv =>
        exact ⟨.int m, by simp [extractValueFuel, except_map_ok, except_bind_ok, h1, h2, hcv]⟩
      | dblTag d v w h1 h2 h3 hcv =>
        exact ⟨w, by simp [extractValueFuel, except_map_ok, except_bind_ok, h1, h2, h3, hcv]⟩
      | boolTag d v h1 h2 h3 h4 =>
        exact ⟨.bool (pyTruthy v), by simp [extractValueFuel, except_map_ok, except_bind_ok, h1, h2, h3, h4]⟩
      | arrNotDict d av h1 h2 h3 h4 h5 hnd =>
        refine ⟨.list [], ?_⟩
        cases av <;> simp_all [extractValueFuel, isDictVal]
      | arrNoValues d ad h1 h2 h3 h4 h5 h6 =>
        exact ⟨.list [], by simp [extractValueFuel, except_map_ok, except_bind_ok, h1, h2, h3, h4, h5, h6]⟩
      | arrList d ad vs h1 h2 h3 h4 h5 h6 hge =>
        have hs1 : pyValSize (.dict ad) < pyValSizeDict d := pyValSize_dictGet h5
        have hs2 : pyValSize (.list vs) < pyValSizeDict ad := pyValSize_dictGet h6
        have hvo : pyValSize (.dict d) = 1 + pyValSizeDict d := by simp [pyValSize]
        have had : pyValSize (.dict ad) = 1 + pyValSizeDict ad := by simp [pyValSize]
        have hvs : pyValSize (.list vs) = 1 + pyValSizeList vs := by simp [pyValSize]
        obtain ⟨l, hl⟩ := ihl vs hge (by omega)
        exact ⟨.list l, by simp [extractValueFuel, except_map_ok, except_bind_ok, h1, h2, h3, h4, h5, h6, hl]⟩
      | kvNotDict d kv h1 h2 h3 h4 h5 h6 hnd =>
        refine ⟨.dict [], ?_⟩
        cases kv <;> simp_all [extractValueFuel, isDictVal]
      | kvNoValues d kd h1 h2 h3 h4 h5 h6 h7 =>
        exact ⟨.dict [], by simp [extractValueFuel, except_map_ok, except_bind_ok, h1, h2, h3, h4, h5, h6, h7]⟩
      | kvList d kd kvs h1 h2 h3 h4 h5 h6 h7 hgk =>
        have hs1 : pyValSize (.dict kd) < pyValSizeDict d := pyValSize_dictGet h6
        have hs2 : pyValSize (.list kvs) < pyValSizeDict kd := pyValSize_dictGet h7
        have hvo : pyValSize (.dict d) = 1 + pyValSizeDict d := by simp [pyValSize]
        have had : pyValSize (.dict kd) = 1 + pyValSizeDict kd := by simp [pyValSize]
        have hvs : pyValSize (.list kvs) = 1 + pyValSizeList kvs := by simp [pyValSize]
        obtain ⟨r, hr⟩ := ihk kvs [] hgk (by omega)
        exact ⟨.dict r, by simp [extractValueFuel, except_map_ok, except_bind_ok, h1, h2, h3, h4, h5, h6, h7, hr]⟩
      | bytesTag d v h1 h2 h3 h4 h5 h6 h7 =>
        exact ⟨v, by simp [extractValueFuel, except_map_ok, except_bind_ok, h1, h2, h3, h4, h5, h6, h7]⟩
      | noTag d h1 h2 h3 h4 h5 h6 h7 =>
        exact ⟨.none, by simp [extractValueFuel, except_map_ok, except_bind_ok, h1, h2, h3, h4, h5, h6, h7]⟩
    · intro vs hge hsz
      cases hge with
      | nil => exact ⟨[], by simp [extractListFuel]⟩
      | cons v vs' hv hvs' =>
        have hps := pyValSize_pos v
        have hpl := pyValSizeList_pos vs'
        have h1 : pyValSizeList (v :: vs') = 1 + pyValSize v + pyValSizeList vs' := by
          simp [pyValSizeList]
        obtain ⟨x, hx⟩ := ihv v hv (by omega)
        obtain ⟨xs, hxs⟩ := ihl vs' hvs' (by omega)
        exact ⟨x :: xs, by simp [extractListFuel, except_map_ok, except_bind_ok, hx, hxs]⟩
    · intro kvs acc hgk hsz
      cases hgk with
      | nil => exact ⟨acc, by simp [extractKvFuel]⟩
      | consNoVal kvd rest hnone hrest =>
        have h1 : pyValSizeList (.dict kvd :: rest) =
            1 + pyValSize (.dict kvd) + pyValSizeList rest := by simp [pyValSizeList]
        have h2 : 1 ≤ pyValSize (.dict kvd) := pyValSize_pos _
        have h3 : 1 ≤ pyValSizeList rest := pyValSizeList_pos rest
        obtain ⟨r, hr⟩ := ihk rest (dictSet acc (pyGet kvd (.str "key") (.str "")) .none)
          hrest (by omega)
        refine ⟨r, ?_⟩
        have hw : pyGet kvd (.str "value") (.dict []) = .dict [] := by
          simp [pyGet, hnone]
        rcases n with _ | m
        · omega
        · simp [extractKvFuel, except_map_ok, except_bind_ok, hw, extractValueFuel_empty_dict, hr]
      | consVal kvd w rest hsome hgw hrest =>
        have h1 : pyValSizeList (.dict kvd :: rest) =
            1 + pyValSize (.dict kvd) + pyValSizeList rest := by simp [pyValSizeList]
        have h2 : pyValSize (.dict kvd) = 1 + pyValSizeDict kvd := by simp [pyValSize]
        have h3 : pyValSize w < pyValSizeDict kvd := pyValSize_dictGet hsome
        have h4 : 1 ≤ pyValSizeList rest := pyValSizeList_pos rest
        obtain ⟨x, hx⟩ := ihv w hgw (by omega)
        obtain ⟨r, hr⟩ := ihk rest (dictSet acc (pyGet kvd (.str "key") (.str "")) x)
          hrest (by omega)
        have hw : pyGet kvd (.str "value") (.dict []) = w := by
          simp [pyGet, hsome]
        exact ⟨r, by simp [extractKvFuel, except_map_ok, except_bind_ok, hw, hx, hr]⟩

theorem flattenLoop_ok :
    ∀ (items : List PyVal) (acc : List (PyVal × PyVal)),
      (∀ a ∈ items, ∃ d, a = .dict d ∧
        (pyTruthy (pyGet d (.str "key") (.str "")) = true →
         ∀ vo, pyGet d (.str "value") (.dict []) = .dict vo → GoodVO (.dict vo))) →
      ∃ r, flattenLoop items acc = .ok r := by
  intro items
  induction items with
  | nil => intro acc _; exact ⟨acc, rfl⟩
  | cons a rest ih =>
    intro acc hcond
    obtain ⟨d, hd, hval⟩ := hcond a (List.mem_cons_self a rest)
    subst hd
    have hrest : ∀ a ∈ rest, ∃ d, a = .dict d ∧
        (pyTruthy (pyGet d (.str "key") (.str "")) = true →
         ∀ vo, pyGet d (.str "value") (.dict []) = .dict vo → GoodVO (.dict vo)) :=
      fun x hx => hcond x (List.mem_cons_of_mem _ hx)
    by_cases hkey : pyTruthy (pyGet d (.str "key") (.str "")) = true
    · rcases hvo : pyGet d (.str "value") (.dict []) with _ | _ | _ | _ | _ | _ | _ | _ | vo
      iterate 8
        (obtain ⟨r, hr⟩ := ih acc hrest;
         exact ⟨r, by simp [flattenLoop, hkey, hvo, hr]⟩)
      have hg : GoodVO (.dict vo) := hval hkey vo hvo
      have hfuel : pyValSize (.dict vo) < pyValSize (.dict vo) + 2 := by omega
      obtain ⟨v, hv⟩ := (extract_good_ok (pyValSize (.dict vo) + 2)).1 (.dict vo) hg hfuel
      obtain ⟨r, hr⟩ := ih (dictSet acc (pyGet d (.str "key") (.str "")) v) hrest
      refine ⟨r, ?_⟩
      simp [flattenLoop, hkey, hvo, extract_value, hv, hr, except_bind_ok]
    · obtain ⟨r, hr⟩ := ih acc hrest
      refine ⟨r, ?_⟩
      simp only [Bool.not_eq_true] at hkey
      simp [flattenLoop, hkey, hr]

/-- C2 (amended): `flatten_attributes` raises no error on any attribute list
whose entries are dicts and whose value objects fire a branch needing no
failing conversion (in particular, any int_value/double_value payload
converts and nested `values` lists are well formed).  The original claim
of totality over all well-typed input is false: a non-numeric string under
`int_value` raises `ValueError` (see the counterexample). -/
theorem C2_flatten_total_on_convertible :
    ∀ (l : List PyVal),
      (∀ a ∈ l, ∃ d, a = .dict d ∧
        (pyTruthy (pyGet d (.str "key") (.str "")) = true →
         ∀ vo, pyGet d (.str "value") (.dict []) = .dict vo → GoodVO (.dict vo))) →
      ∃ r, flatten_attributes (.list l) = .ok r := by
  intro l hcond
  cases l with
  | nil => exact ⟨[], by simp [flatten_attributes, pyTruthy]⟩
  | cons a rest =>
    obtain ⟨r, hr⟩ := flattenLoop_ok (a :: rest) [] hcond
    refine ⟨r, ?_⟩
    simp [flatten_attributes, pyTruthy, pyIter, except_bind_ok, hr]

/-- C2 counterexample: a well-typed attribute entry whose value object maps
the tag `int_value` to the non-numeric JSON string `"abc"` makes
`flatten_attributes` raise `ValueError` (Python `int("abc")`), so the
error branch is reachable and the function is not total over well-typed
input. -/
theorem C2_counterexample :
    flatten_attributes
        (.list [.dict [(.str "key", .str "k"),
                       (.str "value", .dict [(.str "int_value", .str "abc")])]]) =
      .error .valueError := by
  decide

/-- C2 witness: the amended totality theorem applied to a concrete attribute
list whose `int_value` payload is the numeric string `"42"`. -/
theorem C2_witness :
    ∃ r, flatten_attributes
        (.list [.dict [(.str "key", .str "k"),
                       (.str "value", .dict [(.str "int_value", .str "42")])]]) =
      .ok r :=
  C2_flatten_total_on_convertible
    [.dict [(.str "key", .str "k"),
            (.str "value", .dict [(.str "int_value", .str "42")])]]
    (by
      intro a ha
      simp only [List.mem_singleton] at ha
      subst ha
      refine ⟨_, rfl, ?_⟩
      intro _ vo hvo
      have h : vo = [(PyVal.str "int_value", PyVal.str "42")] := by
        simp [pyGet, dictGet] at hvo
        exact hvo.symm
      cases h
      exact GoodVO.intTag _ (.str "42") 42 (by decide) (by decide) (by decide))

/-- C6: a raw span whose `trace_id` is a (truthy) JSON number makes
`normalize_id` call `.strip()` on an int, raising `AttributeError`, which
the per-span handler (`except (KeyError, TypeError, ValueError)`) does not
catch: `parse_line` aborts instead of skipping the malformed span and
returning its well-formed sibling, and the error also escapes
`parse_stream`/`parse_file`, contradicting the skip-malformed-spans
contract stated by the source's own comment and the spec. -/
theorem C6_attribute_error_escapes :
    parse_line "\x7b\"resource_spans\": [\x7b\"scope_spans\": [\x7b\"spans\": [\x7b\"span_id\": \"AA\"\x7d, \x7b\"trace_id\": 5\x7d]\x7d]\x7d]\x7d" =
      .error .attributeError ∧
    parse_line "\x7b\"resource_spans\": [\x7b\"scope_spans\": [\x7b\"spans\": [\x7b\"span_id\": \"AA\"\x7d]\x7d]\x7d]\x7d" =
      .ok [RawSpan.mk "" "aa" "" (.str "") (.str "") 0 0 [] [] [] []] ∧
    parse_file "\x7b\"resource_spans\": [\x7b\"scope_spans\": [\x7b\"spans\": [\x7b\"span_id\": \"AA\"\x7d, \x7b\"trace_id\": 5\x7d]\x7d]\x7d]\x7d\n".toList =
      .error .attributeError := by
  refine ⟨by decide, by decide, by decide⟩

/-- Spans of a list sharing one exact start time, in list order: the
observation by which stability of a sort is stated. -/
def filterStart (v : Int) (l : List RawSpan) : List RawSpan :=
  l.filter (fun s => decide (s.start_time_unix_nano = v))

theorem insertByStart_perm (x : RawSpan) (l : List RawSpan) :
    List.Perm (insertByStart x l) (x :: l) := by
  induction l with
  | nil => simp [insertByStart]
  | cons y ys ih =>
    simp only [insertByStart]
    split_ifs with h
    · exact List.Perm.refl _
    · exact List.Perm.trans (ih.cons y) (List.Perm.swap x y ys)

theorem sortByStart_perm (l : List RawSpan) : List.Perm (sortByStart l) l := by
  induction l with
  | nil => simp [sortByStart]
  | cons x xs ih =>
    simp only [sortByStart, List.foldr_cons]
    exact List.Perm.trans (insertByStart_perm x _) (ih.cons x)

theorem sorted_insertByStart (x : RawSpan) (l : List RawSpan)
    (h : SortedByStart l) : SortedByStart (insertByStart x l) := by
  induction l with
  | nil => simp [insertByStart, SortedByStart]
  | cons y ys ih =>
    simp only [SortedByStart, List.pairwise_cons] at h
    obtain ⟨hy, hys⟩ := h
    simp only [insertByStart]
    split_ifs with hle
    · refine List.Pairwise.cons ?_ (List.Pairwise.cons hy hys)
      intro z hz
      rcases List.mem_cons.mp hz with h1 | h1
      · subst h1; exact hle
      · exact le_trans hle (hy z h1)
    · refine List.Pairwise.cons ?_ (ih hys)
      intro z hz
      have hz' := (insertByStart_perm x ys).mem_iff.mp hz
      rcases List.mem_cons.mp hz' with h1 | h1
      · subst h1; omega
      · exact hy z h1

theorem sorted_sortByStart (l : List RawSpan) : SortedByStart (sortByStart l) := by
  induction l with
  | nil => simp [sortByStart, SortedByStart]
  | cons x xs ih =>
    simp only [sortByStart, List.foldr_cons]
    exact sorted_insertByStart x _ ih

theorem filterStart_insertByStart_ne (x : RawSpan) (l : List RawSpan) (v : Int)
    (h : x.start_time_unix_nano ≠ v) :
    filterStart v (insertByStart x l) = filterStart v l := by
  induction l with
  | nil => simp [insertByStart, filterStart, h]
  | cons y ys ih =>
    simp only [insertByStart]
    split_ifs with hle
    · simp [filterStart, h]
    · simp only [filterStart, List.filter_cons] at *
      split <;> simp_all

theorem filterStart_insertByStart_eq (x : RawSpan) (l : List RawSpan)
    (h : SortedByStart l) :
    filterStart x.start_time_unix_nano (insertByStart x l) =
      x :: filterStart x.start_time_unix_nano l := by
  induction l with
  | nil => simp [insertByStart, filterStart]
  | cons y ys ih =>
    simp only [SortedByStart, List.pairwise_cons] at h
    obtain ⟨hy, hys⟩ := h
    simp only [insertByStart]
    split_ifs with hle
    · simp [filterStart]
    · have hlt : y.start_time_unix_nano < x.start_time_unix_nano := by omega
      have hne : ¬ y.start_time_unix_nano = x.start_time_unix_nano := by omega
      simp only [filterStart, List.filter_cons] at *
      simp only [decide_eq_true_eq]
      rw [if_neg (by simpa using hne)]
      have := ih hys
      simp only [filterStart] at this
      rw [this]
      rw [if_neg (by simpa using hne)]

theorem sortByStart_cons (x : RawSpan) (xs : List RawSpan) :
    sortByStart (x :: xs) = insertByStart x (sortByStart xs) := rfl

theorem filterStart_sortByStart (l : List RawSpan) (v : Int) :
    filterStart v (sortByStart l) = filterStart v l := by
  induction l with
  | nil => simp [sortByStart]
  | cons x xs ih =>
    rw [sortByStart_cons]
    by_cases hx : x.start_time_unix_nano = v
    · subst hx
      rw [filterStart_insertByStart_eq x _ (sorted_sortByStart xs), ih]
      simp [filterStart, List.filter_cons]
    · rw [filterStart_insertByStart_ne x _ v hx, ih]
      simp [filterStart, List.filter_cons, hx]

/-- C8: in every forest returned by `build_tree`, each node's children list
and the root list are ascending-sorted by `start_time_unix_nano`, and the
sort is stable: restricted to any fixed start time, the sorted list equals
the pre-sort list (linking order, which is input order), so ties keep
their original relative order. -/
theorem C8_sorted_and_stable :
    ∀ spans : List RawSpan,
      (∀ g ∈ (build_tree spans).groups, ∀ e ∈ g.children,
        SortedByStart e.2 ∧
        ∀ v, filterStart v e.2 = filterStart v (childrenUnsorted g.nodes e.1)) ∧
      SortedByStart (build_tree spans).roots ∧
      (∀ v, filterStart v (build_tree spans).roots =
        filterStart v ((build_tree spans).groups.map GroupTree.rootSpans).flatten) := by
  intro spans
  by_cases hsp : spans.isEmpty
  · refine ⟨?_, ?_, ?_⟩ <;> simp [build_tree, hsp, SortedByStart, filterStart]
  · refine ⟨?_, ?_, ?_⟩
    · intro g hg e he
      simp only [build_tree, hsp, Bool.false_eq_true, if_false, List.mem_map] at hg
      obtain ⟨p, hp, hgp⟩ := hg
      subst hgp
      simp only [mkGroupTree, List.mem_map] at he
      obtain ⟨a, hma, hea⟩ := he
      subst hea
      simp only [mkGroupTree]
      exact ⟨sorted_sortByStart _, fun v => filterStart_sortByStart _ v⟩
    · simp only [build_tree, hsp, Bool.false_eq_true, if_false]
      exact sorted_sortByStart _
    · intro v
      simp only [build_tree, hsp, Bool.false_eq_true, if_false]
      exact filterStart_sortByStart _ v

/-- C8 witness: two root spans and two child spans with tied start times; the
theorem applied at this input yields sortedness of the concrete root list
and children list, and tie-stability of the children at start time 5. -/
theorem C8_witness :
    SortedByStart
      (build_tree
        [RawSpan.mk "t" "a" "" (.str "") (.str "") 7 0 [] [] [] [],
         RawSpan.mk "t" "b" "" (.str "") (.str "") 7 0 [] [] [] [],
         RawSpan.mk "t" "c" "a" (.str "") (.str "") 5 0 [] [] [] [],
         RawSpan.mk "t" "d" "a" (.str "") (.str "") 5 0 [] [] [] []]).roots ∧
    SortedByStart
      [RawSpan.mk "t" "c" "a" (.str "") (.str "") 5 0 [] [] [] [],
       RawSpan.mk "t" "d" "a" (.str "") (.str "") 5 0 [] [] [] []] ∧
    filterStart 5
        [RawSpan.mk "t" "c" "a" (.str "") (.str "") 5 0 [] [] [] [],
         RawSpan.mk "t" "d" "a" (.str "") (.str "") 5 0 [] [] [] []] =
      filterStart 5
        (childrenUnsorted
          (mkGroupTree "t"
            [RawSpan.mk "t" "a" "" (.str "") (.str "") 7 0 [] [] [] [],
             RawSpan.mk "t" "b" "" (.str "") (.str "") 7 0 [] [] [] [],
             RawSpan.mk "t" "c" "a" (.str "") (.str "") 5 0 [] [] [] [],
             RawSpan.mk "t" "d" "a" (.str "") (.str "") 5 0 [] [] [] []]).nodes "a") := by
  have h := C8_sorted_and_stable
    [RawSpan.mk "t" "a" "" (.str "") (.str "") 7 0 [] [] [] [],
     RawSpan.mk "t" "b" "" (.str "") (.str "") 7 0 [] [] [] [],
     RawSpan.mk "t" "c" "a" (.str "") (.str "") 5 0 [] [] [] [],
     RawSpan.mk "t" "d" "a" (.str "") (.str "") 5 0 [] [] [] []]
  have hch := h.1
    (mkGroupTree "t"
      [RawSpan.mk "t" "a" "" (.str "") (.str "") 7 0 [] [] [] [],
       RawSpan.mk "t" "b" "" (.str "") (.str "") 7 0 [] [] [] [],
       RawSpan.mk "t" "c" "a" (.str "") (.str "") 5 0 [] [] [] [],
       RawSpan.mk "t" "d" "a" (.str "") (.str "") 5 0 [] [] [] []])
    (by decide)
    ("a",
     [RawSpan.mk "t" "c" "a" (.str "") (.str "") 5 0 [] [] [] [],
      RawSpan.mk "t" "d" "a" (.str "") (.str "") 5 0 [] [] [] []])
    (by decide)
  exact ⟨h.2.1, hch.1, hch.2 5⟩

theorem addToGroup_inv (gs : List (String × List RawSpan)) (x : RawSpan)
    (h : ∀ p ∈ gs, ∀ s ∈ p.2, s.trace_id = p.1) :
    ∀ p ∈ addToGroup gs x, ∀ s ∈ p.2, s.trace_id = p.1 := by
  induction gs with
  | nil =>
    intro p hp s hs
    simp only [addToGroup, List.mem_singleton] at hp
    subst hp
    simp only [List.mem_singleton] at hs
    subst hs
    rfl
  | cons e rest ih =>
    obtain ⟨t, l⟩ := e
    intro p hp s hs
    simp only [addToGroup] at hp
    split_ifs at hp with ht
    · rcases List.mem_cons.mp hp with h1 | h1
      · subst h1
        rcases List.mem_append.mp hs with h2 | h2
        · exact h (t, l) (List.mem_cons_self _ _) s h2
        · simp only [List.mem_singleton] at h2
          subst h2
          exact ht.symm
      · exact h p (List.mem_cons_of_mem _ h1) s hs
    · rcases List.mem_cons.mp hp with h1 | h1
      · subst h1
        exact h (t, l) (List.mem_cons_self _ _) s hs
      · exact ih (fun q hq => h q (List.mem_cons_of_mem _ hq)) p h1 s hs

theorem group_by_trace_inv (spans : List RawSpan) :
    ∀ p ∈ group_by_trace spans, ∀ s ∈ p.2, s.trace_id = p.1 := by
  have main : ∀ (l : List RawSpan) (gs : List (String × List RawSpan)),
      (∀ p ∈ gs, ∀ s ∈ p.2, s.trace_id = p.1) →
      ∀ p ∈ List.foldl addToGroup gs l, ∀ s ∈ p.2, s.trace_id = p.1 := by
    intro l
    induction l with
    | nil => intro gs h; simpa using h
    | cons x rest ih =>
      intro gs h
      exact ih (addToGroup gs x) (addToGroup_inv gs x h)
  exact main spans [] (by simp)

theorem addNode_mem {nodes : List (String × RawSpan)} {s : RawSpan}
    {e : String × RawSpan} (h : e ∈ addNode nodes s) :
    e ∈ nodes ∨ e = (s.span_id, s) := by
  simp only [addNode] at h
  split_ifs at h with hc
  · exact Or.inl h
  · rcases List.mem_append.mp h with h1 | h1
    · exact Or.inl h1
    · simp only [List.mem_singleton] at h1
      exact Or.inr h1

theorem buildNodes_mem (l : List RawSpan) :
    ∀ e ∈ buildNodes l, e.1 = e.2.span_id ∧ e.2 ∈ l := by
  have main : ∀ (l : List RawSpan) (acc : List (String × RawSpan)) (e : String × RawSpan),
      e ∈ List.foldl addNode acc l → e ∈ acc ∨ ∃ s ∈ l, e = (s.span_id, s) := by
    intro l
    induction l with
    | nil =>
      intro acc e h
      simp only [List.foldl_nil] at h
      exact Or.inl h
    | cons x rest ih =>
      intro acc e h
      rcases ih (addNode acc x) e h with h1 | h1
      · rcases addNode_mem h1 with h2 | h2
        · exact Or.inl h2
        · exact Or.inr ⟨x, List.mem_cons_self _ _, h2⟩
      · obtain ⟨s, hs, he⟩ := h1
        exact Or.inr ⟨s, List.mem_cons_of_mem _ hs, he⟩
  intro e he
  rcases main l [] e he with h1 | h1
  · simp at h1
  · obtain ⟨s, hs, he'⟩ := h1
    subst he'
    exact ⟨rfl, hs⟩

theorem string_contains_iff (l : List String) (a : String) :
    l.contains a = true ↔ a ∈ l := by
  show l.elem a = true ↔ a ∈ l
  exact List.elem_iff

theorem buildNodes_nodup_keys (l : List RawSpan) : (nodeIds (buildNodes l)).Nodup := by
  have main : ∀ (l : List RawSpan) (acc : List (String × RawSpan)),
      (nodeIds acc).Nodup → (nodeIds (List.foldl addNode acc l)).Nodup := by
    intro l
    induction l with
    | nil => intro acc h; simpa using h
    | cons x rest ih =>
      intro acc h
      refine ih (addNode acc x) ?_
      simp only [addNode]
      split_ifs with hc
      · exact h
      · simp only [nodeIds, List.map_append, List.map_cons, List.map_nil]
        rw [List.nodup_append]
        refine ⟨h, List.nodup_singleton _, ?_⟩
        intro a ha hb
        simp only [List.mem_singleton] at hb
        subst hb
        exact hc ((string_contains_iff _ _).mpr (by simpa [nodeIds] using ha))
  exact main l [] (by simp [nodeIds])

theorem lookupNode_mem {nodes : List (String × RawSpan)} {id : String} {s : RawSpan}
    (h : lookupNode nodes id = some s) : (id, s) ∈ nodes := by
  induction nodes with
  | nil => simp [lookupNode] at h
  | cons e rest ih =>
    obtain ⟨k, v⟩ := e
    simp only [lookupNode] at h
    split_ifs at h with hk
    · cases h
      subst hk
      exact List.mem_cons_self _ _
    · exact List.mem_cons_of_mem _ (ih h)

theorem mem_lookupNode {nodes : List (String × RawSpan)} {id : String} {s : RawSpan}
    (hnd : (nodeIds nodes).Nodup) (h : (id, s) ∈ nodes) :
    lookupNode nodes id = some s := by
  induction nodes with
  | nil => simp at h
  | cons e rest ih =>
    obtain ⟨k, v⟩ := e
    simp only [nodeIds, List.map_cons, List.nodup_cons] at hnd
    obtain ⟨hk, hnd'⟩ := hnd
    rcases List.mem_cons.mp h with h1 | h1
    · cases h1
      simp [lookupNode]
    · have hne : k ≠ id := by
        intro he
        subst he
        exact hk (by simpa [nodeIds] using List.mem_map_of_mem Prod.fst h1)
      simp only [lookupNode, if_neg hne]
      exact ih hnd' h1

theorem mem_groupRootSpans {nodes : List (String × RawSpan)} {s : RawSpan} :
    s ∈ groupRootSpans nodes ↔
      ∃ id, (id, s) ∈ nodes ∧ attachedParent nodes s = Option.none := by
  constructor
  · intro h
    simp only [groupRootSpans, List.mem_map, List.mem_filter] at h
    obtain ⟨e, ⟨he, hn⟩, hes⟩ := h
    refine ⟨e.1, ?_, ?_⟩
    · rw [show (e.1, s) = e by rw [← hes]]
      exact he
    · rw [hes] at hn
      exact Option.isNone_iff_eq_none.mp hn
  · rintro ⟨id, hmem, hap⟩
    simp only [groupRootSpans, List.mem_map, List.mem_filter]
    exact ⟨(id, s), ⟨hmem, by simp [hap]⟩, rfl⟩

theorem mem_childrenUnsorted {nodes : List (String × RawSpan)} {s : RawSpan} {pid : String} :
    s ∈ childrenUnsorted nodes pid ↔
      ∃ id, (id, s) ∈ nodes ∧ attachedParent nodes s = some pid := by
  constructor
  · intro h
    simp only [childrenUnsorted, List.mem_map, List.mem_filter] at h
    obtain ⟨e, ⟨he, hn⟩, hes⟩ := h
    refine ⟨e.1, ?_, ?_⟩
    · rw [show (e.1, s) = e by rw [← hes]]
      exact he
    · rw [hes] at hn
      exact eq_of_beq hn
  · rintro ⟨id, hmem, hap⟩
    simp only [childrenUnsorted, List.mem_map, List.mem_filter]
    exact ⟨(id, s), ⟨hmem, by simp [hap]⟩, rfl⟩

theorem attachedParent_eq_none {nodes : List (String × RawSpan)} {s : RawSpan} :
    attachedParent nodes s = Option.none ↔
      (s.parent_span_id = "" ∨ s.parent_span_id ∉ nodeIds nodes) := by
  unfold attachedParent
  split_ifs with h
  · simp only [reduceCtorEq, false_iff]
    push_neg
    exact ⟨h.1, (string_contains_iff _ _).mp h.2⟩
  · simp only [true_iff]
    rw [not_and_or] at h
    rcases h with h1 | h1
    · exact Or.inl (by simpa using h1)
    · exact Or.inr (fun hm => h1 ((string_contains_iff _ _).mpr hm))

/-- C4: the roots returned by `build_tree` are exactly the spans (one node
per distinct span id) whose `parent_span_id` is empty or names a span id
absent from their own trace group; parent lookup never crosses trace
groups, so a parent id existing only in another group still yields a
root. -/
theorem C4_roots_exactly :
    ∀ (spans : List RawSpan) (s : RawSpan),
      s ∈ (build_tree spans).roots ↔
      ∃ g ∈ (build_tree spans).groups,
        g.trace_id = s.trace_id ∧ (s.span_id, s) ∈ g.nodes ∧
        (s.parent_span_id = "" ∨ s.parent_span_id ∉ nodeIds g.nodes) := by
  intro spans s
  by_cases hsp : spans.isEmpty
  · simp [build_tree, hsp]
  · simp only [build_tree, hsp, Bool.false_eq_true, if_false]
    constructor
    · intro h
      have h2 := (sortByStart_perm _).mem_iff.mp h
      rw [List.mem_flatten] at h2
      obtain ⟨lr, hlr, hs⟩ := h2
      rw [List.mem_map] at hlr
      obtain ⟨g, hg, hgr⟩ := hlr
      subst hgr
      rw [List.mem_map] at hg
      obtain ⟨p, hp, hgp⟩ := hg
      subst hgp
      simp only [mkGroupTree] at hs
      obtain ⟨id, hmem, hap⟩ := mem_groupRootSpans.mp hs
      have hkey := buildNodes_mem p.2 (id, s) hmem
      simp only at hkey
      obtain ⟨hid, hsp2⟩ := hkey
      refine ⟨mkGroupTree p.1 p.2, List.mem_map_of_mem _ hp, ?_, ?_, ?_⟩
      · simp only [mkGroupTree]
        exact (group_by_trace_inv spans p hp s hsp2).symm
      · simp only [mkGroupTree]
        rw [← hid]
        exact hmem
      · simpa only [mkGroupTree] using attachedParent_eq_none.mp hap
    · rintro ⟨g, hg, htr, hmem, hcond⟩
      have hap : attachedParent g.nodes s = Option.none := attachedParent_eq_none.mpr hcond
      rw [List.mem_map] at hg
      obtain ⟨p, hp, hgp⟩ := hg
      have hroot : s ∈ g.rootSpans := by
        subst hgp
        simp only [mkGroupTree] at hmem hap ⊢
        exact mem_groupRootSpans.mpr ⟨s.span_id, hmem, hap⟩
      refine (sortByStart_perm _).mem_iff.mpr ?_
      rw [List.mem_flatten]
      refine ⟨g.rootSpans, ?_, hroot⟩
      rw [List.mem_map]
      exact ⟨g, by rw [List.mem_map]; exact ⟨p, hp, hgp⟩, rfl⟩

/-- C4 witness: a span whose parent id exists only in a different trace
group is a root; the characterization applied at a concrete two-trace
input. -/
theorem C4_witness :
    RawSpan.mk "t1" "a" "b" (.str "") (.str "") 0 0 [] [] [] [] ∈
      (build_tree
        [RawSpan.mk "t1" "a" "b" (.str "") (.str "") 0 0 [] [] [] [],
         RawSpan.mk "t2" "b" "" (.str "") (.str "") 0 0 [] [] [] []]).roots :=
  (C4_roots_exactly
    [RawSpan.mk "t1" "a" "b" (.str "") (.str "") 0 0 [] [] [] [],
     RawSpan.mk "t2" "b" "" (.str "") (.str "") 0 0 [] [] [] []]
    (RawSpan.mk "t1" "a" "b" (.str "") (.str "") 0 0 [] [] [] [])).mpr
    ⟨mkGroupTree "t1" [RawSpan.mk "t1" "a" "b" (.str "") (.str "") 0 0 [] [] [] []],
     by decide, by decide, by decide, Or.inr (by decide)⟩

theorem iterParent_succ_out (nodes : List (String × RawSpan)) (k : Nat) (id : String) :
    iterParent nodes (k + 1) id = (iterParent nodes k id).bind (parentOf nodes) := by
  induction k generalizing id with
  | zero =>
    rcases hp : parentOf nodes id with _ | p <;> simp [iterParent, hp]
  | succ j ih =>
    rw [show iterParent nodes (j + 1 + 1) id =
      (parentOf nodes id).bind (iterParent nodes (j + 1)) from rfl,
      show iterParent nodes (j + 1) id =
      (parentOf nodes id).bind (iterParent nodes j) from rfl]
    rcases hp : parentOf nodes id with _ | p
    · rfl
    · exact ih p

theorem cycle_shift {nodes : List (String × RawSpan)} {id p : String} {k : Nat}
    (hp : parentOf nodes id = some p) (hc : iterParent nodes k id = some id) :
    iterParent nodes k p = some p := by
  have h1 : iterParent nodes (k + 1) id = some p := by
    rw [iterParent_succ_out, hc]
    simpa using hp
  have h2 : iterParent nodes (k + 1) id = iterParent nodes k p := by
    rw [show iterParent nodes (k + 1) id =
      (parentOf nodes id).bind (iterParent nodes k) from rfl]
    rw [hp]
    simp
  rw [h2] at h1
  exact h1

theorem reaches_no_cycle {nodes : List (String × RawSpan)} {id : String}
    (hr : ReachesRoot nodes id) :
    ∀ k, 0 < k → iterParent nodes k id ≠ some id := by
  induction hr with
  | root id s hl hap =>
    intro k hk hcy
    have hpo : parentOf nodes id = Option.none := by simp [parentOf, hl, hap]
    rcases k with _ | j
    · omega
    · rw [show iterParent nodes (j + 1) id =
        (parentOf nodes id).bind (iterParent nodes j) from rfl, hpo] at hcy
      simp at hcy
  | step id s p hl hap hrp ih =>
    intro k hk hcy
    have hpo : parentOf nodes id = some p := by simp [parentOf, hl, hap]
    exact ih k hk (cycle_shift hpo hcy)

theorem self_loop_unreachable {nodes : List (String × RawSpan)} {id : String} {s : RawSpan}
    (hl : lookupNode nodes id = some s) (hap : attachedParent nodes s = some id) :
    ¬ ReachesRoot nodes id := by
  suffices h : ∀ j, ReachesRoot nodes j →
      ∀ s', lookupNode nodes j = some s' → attachedParent nodes s' = some j → False by
    intro hr
    exact h id hr s hl hap
  intro j hr
  induction hr with
  | root j0 s0 h1 h2 =>
    intro s' hl' hap'
    rw [h1] at hl'
    have hs : s0 = s' := Option.some.inj hl'
    subst hs
    rw [h2] at hap'
    cases hap'
  | step j0 s0 p h1 h2 hrp ih =>
    intro s' hl' hap'
    rw [h1] at hl'
    have hs : s0 = s' := Option.some.inj hl'
    subst hs
    rw [h2] at hap'
    have hpj : p = j0 := Option.some.inj hap'
    subst hpj
    exact ih s0 h1 h2

/-- C1 (amended): the forest returned by `build_tree` has no cycles among the
nodes reachable from its roots; but a span whose `parent_span_id` equals
its own (non-empty) `span_id` is not treated as a root: it is attached as
a child of itself, excluded from the root list, and — being unreachable
from any root — absent from the returned forest (see the counterexample
for the original claim). -/
theorem C1_reachable_acyclic_self_parent :
    ∀ (spans : List RawSpan) (g : GroupTree), g ∈ (build_tree spans).groups →
      (∀ id, ReachesRoot g.nodes id → ∀ k, 0 < k →
        iterParent g.nodes k id ≠ some id) ∧
      (∀ s : RawSpan, (s.span_id, s) ∈ g.nodes → s.parent_span_id = s.span_id →
        s.span_id ≠ "" →
        attachedParent g.nodes s = some s.span_id ∧
        s ∈ childrenUnsorted g.nodes s.span_id ∧
        s ∉ g.rootSpans ∧
        ¬ ReachesRoot g.nodes s.span_id) := by
  intro spans g hg
  constructor
  · intro id hr
    exact reaches_no_cycle hr
  · intro s hmem hself hne
    by_cases hsp : spans.isEmpty
    · simp [build_tree, hsp] at hg
    · simp only [build_tree, hsp, Bool.false_eq_true, if_false, List.mem_map] at hg
      obtain ⟨p, hp, hgp⟩ := hg
      subst hgp
      simp only [mkGroupTree] at hmem ⊢
      have hnd : (nodeIds (buildNodes p.2)).Nodup := buildNodes_nodup_keys p.2
      have hap : attachedParent (buildNodes p.2) s = some s.span_id := by
        unfold attachedParent
        rw [if_pos ?_]
        · rw [hself]
        · refine ⟨by rw [hself]; exact hne, ?_⟩
          rw [string_contains_iff]
          rw [hself]
          exact List.mem_map_of_mem Prod.fst hmem
      refine ⟨hap, mem_childrenUnsorted.mpr ⟨s.span_id, hmem, hap⟩, ?_, ?_⟩
      · intro hroot
        obtain ⟨id', _, hap'⟩ := mem_groupRootSpans.mp hroot
        rw [hap] at hap'
        cases hap'
      · exact self_loop_unreachable (mem_lookupNode hnd hmem) hap

/-- C1 counterexample: `build_tree` on a single self-parented span returns an
empty root list — the span is not treated as a root of its trace group —
and the span is linked as a child of itself in the group arena. -/
theorem C1_counterexample :
    (build_tree [RawSpan.mk "t" "a" "a" (.str "") (.str "") 0 0 [] [] [] []]).roots = [] ∧
    RawSpan.mk "t" "a" "a" (.str "") (.str "") 0 0 [] [] [] [] ∈
      childrenUnsorted
        (mkGroupTree "t" [RawSpan.mk "t" "a" "a" (.str "") (.str "") 0 0 [] [] [] []]).nodes
        "a" := by
  refine ⟨by decide, by decide⟩

/-- C1 witness: the amended theorem applied to the concrete self-parented
span. -/
theorem C1_witness :
    attachedParent
        (mkGroupTree "t" [RawSpan.mk "t" "a" "a" (.str "") (.str "") 0 0 [] [] [] []]).nodes
        (RawSpan.mk "t" "a" "a" (.str "") (.str "") 0 0 [] [] [] []) = some "a" ∧
    RawSpan.mk "t" "a" "a" (.str "") (.str "") 0 0 [] [] [] [] ∈
      childrenUnsorted
        (mkGroupTree "t" [RawSpan.mk "t" "a" "a" (.str "") (.str "") 0 0 [] [] [] []]).nodes
        "a" ∧
    RawSpan.mk "t" "a" "a" (.str "") (.str "") 0 0 [] [] [] [] ∉
      (mkGroupTree "t" [RawSpan.mk "t" "a" "a" (.str "") (.str "") 0 0 [] [] [] []]).rootSpans ∧
    ¬ ReachesRoot
        (mkGroupTree "t" [RawSpan.mk "t" "a" "a" (.str "") (.str "") 0 0 [] [] [] []]).nodes
        "a" :=
  (C1_reachable_acyclic_self_parent
    [RawSpan.mk "t" "a" "a" (.str "") (.str "") 0 0 [] [] [] []]
    (mkGroupTree "t" [RawSpan.mk "t" "a" "a" (.str "") (.str "") 0 0 [] [] [] []])
    (by decide)).2
    (RawSpan.mk "t" "a" "a" (.str "") (.str "") 0 0 [] [] [] [])
    (by decide) (by decide) (by decide)

theorem splitLines_newline_ne_nil : ∀ q : List Char, splitLines (q ++ ['\n']) ≠ [] := by
  intro q
  induction q with
  | nil => simp [splitLines]
  | cons c cs ih =>
    simp only [List.cons_append, splitLines]
    split_ifs with hc
    · simp
    · rcases hsp : splitLines (cs ++ ['\n']) with _ | ⟨l, ls⟩
      · exact absurd hsp ih
      · simp

theorem splitLines_append_newline :
    ∀ (q rest : List Char),
      splitLines (q ++ '\n' :: rest) = splitLines (q ++ ['\n']) ++ splitLines rest := by
  intro q rest
  induction q with
  | nil => simp [splitLines]
  | cons c cs ih =>
    simp only [List.cons_append, splitLines, List.append_eq]
    split_ifs with hc
    · rw [ih]
      simp
    · obtain ⟨l, ls, hq⟩ := List.exists_cons_of_ne_nil (splitLines_newline_ne_nil cs)
      rw [ih, hq]
      simp

theorem processLines_cons_empty {line : List Char} (rest : List (List Char))
    (h : (pyStripChars line).isEmpty = true) :
    processLines (line :: rest) = processLines rest := by
  simp [processLines, h]

theorem processLines_cons_parsed {line : List Char} (rest : List (List Char))
    {spans : List RawSpan}
    (h : (pyStripChars line).isEmpty = false)
    (hp : parse_line (String.mk (pyStripChars line)) = .ok spans) :
    processLines (line :: rest) =
      (do
        let s2 ← processLines rest
        Except.ok (spans ++ s2)) := by
  simp [processLines, h, hp]

theorem processLines_cons_err_caught {line : List Char} (rest : List (List Char))
    {e : PyErr}
    (h : (pyStripChars line).isEmpty = false)
    (hp : parse_line (String.mk (pyStripChars line)) = .error e)
    (hc : caughtByLineHandler e = true) :
    processLines (line :: rest) = processLines rest := by
  simp [processLines, h, hp, hc]

theorem processLines_append :
    ∀ (a b : List (List Char)) (s1 s2 : List RawSpan),
      processLines a = .ok s1 → processLines b = .ok s2 →
      processLines (a ++ b) = .ok (s1 ++ s2) := by
  intro a
  induction a with
  | nil =>
    intro b s1 s2 ha hb
    simp only [processLines] at ha
    cases ha
    simpa using hb
  | cons line rest ih =>
    intro b s1 s2 ha hb
    rw [List.cons_append]
    by_cases hemp : (pyStripChars line).isEmpty = true
    · rw [processLines_cons_empty rest hemp] at ha
      rw [processLines_cons_empty (rest ++ b) hemp]
      exact ih b s1 s2 ha hb
    · have hemp' : (pyStripChars line).isEmpty = false := by simpa using hemp
      rcases hpl : parse_line (String.mk (pyStripChars line)) with e | spans
      · by_cases hc : caughtByLineHandler e = true
        · rw [processLines_cons_err_caught rest hemp' hpl hc] at ha
          rw [processLines_cons_err_caught (rest ++ b) hemp' hpl hc]
          exact ih b s1 s2 ha hb
        · have hcf : caughtByLineHandler e = false := by simpa using hc
          rw [show processLines (line :: rest) = .error e by
            simp [processLines, hemp', hpl, hcf]] at ha
          cases ha
      · rw [processLines_cons_parsed rest hemp' hpl] at ha
        rcases hrest : processLines rest with e2 | s1'
        · rw [hrest] at ha
          rw [except_bind_err] at ha
          cases ha
        · rw [hrest] at ha
          simp only [except_bind_ok] at ha
          cases ha
          rw [processLines_cons_parsed (rest ++ b) hemp' hpl,
              ih b s1' s2 hrest hb]
          simp [except_bind_ok]

/-- C5: for a growing non-stdin file, parsing the initial newline-terminated
content with `parse_incremental` at offset 0 and then parsing the appended
remainder from the returned offset yields, concatenated, exactly the span
list `parse_file` produces on the whole final content. -/
theorem C5_incremental_equivalence :
    ∀ (q p2 : List Char) (s1 s2 : List RawSpan) (o1 o2 : Nat),
      parse_incremental (q ++ ['\n']) 0 = .ok (s1, o1) →
      parse_incremental ((q ++ ['\n']) ++ p2) o1 = .ok (s2, o2) →
      parse_file ((q ++ ['\n']) ++ p2) = .ok (s1 ++ s2) := by
  intro q p2 s1 s2 o1 o2 h1 h2
  unfold parse_incremental at h1 h2
  rcases hp1 : processLines (splitLines ((q ++ ['\n']).drop 0)) with e | s1'
  · rw [hp1] at h1
    simp [Except.map] at h1
  · rw [hp1] at h1
    simp only [Except.map, Except.ok.injEq, Prod.mk.injEq] at h1
    obtain ⟨hs1, ho1⟩ := h1
    have ho1' : o1 = (q ++ ['\n']).length := by
      rw [← ho1]
      simp
    rw [ho1', List.drop_left] at h2
    rcases hp2 : processLines (splitLines p2) with e | s2'
    · rw [hp2] at h2
      simp [Except.map] at h2
    · rw [hp2] at h2
      simp only [Except.map, Except.ok.injEq, Prod.mk.injEq] at h2
      obtain ⟨hs2, _⟩ := h2
      subst hs1
      subst hs2
      unfold parse_file parse_stream
      rw [show (q ++ ['\n']) ++ p2 = q ++ '\n' :: p2 by simp]
      rw [splitLines_append_newline]
      simp only [List.drop_zero] at hp1
      exact processLines_append _ _ _ _ hp1 hp2

/-- C5 witness: the equivalence applied to a concrete growing file whose
first write is a (skipped) `null` line and whose appended remainder is one
resource-span line containing a single span. -/
theorem C5_witness :
    parse_incremental ("null".toList ++ ['\n']) 0 = .ok ([], 5) ∧
    parse_incremental
        (("null".toList ++ ['\n']) ++
          "\x7b\"resourceSpans\": [\x7b\"scopeSpans\": [\x7b\"spans\": [\x7b\"spanId\": \"AA\", \"traceId\": \"T1\"\x7d]\x7d]\x7d]\x7d".toList) 5 =
      .ok ([RawSpan.mk "t1" "aa" "" (.str "") (.str "") 0 0 [] [] [] []],
        (("null".toList ++ ['\n']) ++
          "\x7b\"resourceSpans\": [\x7b\"scopeSpans\": [\x7b\"spans\": [\x7b\"spanId\": \"AA\", \"traceId\": \"T1\"\x7d]\x7d]\x7d]\x7d".toList).length) ∧
    parse_file
        (("null".toList ++ ['\n']) ++
          "\x7b\"resourceSpans\": [\x7b\"scopeSpans\": [\x7b\"spans\": [\x7b\"spanId\": \"AA\", \"traceId\": \"T1\"\x7d]\x7d]\x7d]\x7d".toList) =
      .ok ([] ++ [RawSpan.mk "t1" "aa" "" (.str "") (.str "") 0 0 [] [] [] []]) := by
  refine ⟨by decide, by decide, ?_⟩
  exact C5_incremental_equivalence "null".toList
    "\x7b\"resourceSpans\": [\x7b\"scopeSpans\": [\x7b\"spans\": [\x7b\"spanId\": \"AA\", \"traceId\": \"T1\"\x7d]\x7d]\x7d]\x7d".toList
    [] [RawSpan.mk "t1" "aa" "" (.str "") (.str "") 0 0 [] [] [] []]
    5
    (("null".toList ++ ['\n']) ++
      "\x7b\"resourceSpans\": [\x7b\"scopeSpans\": [\x7b\"spans\": [\x7b\"spanId\": \"AA\", \"traceId\": \"T1\"\x7d]\x7d]\x7d]\x7d".toList).length
    (by decide) (by decide)

theorem kwIdsList_append (a b : List RFKeyword) :
    kwIdsList (a ++ b) = kwIdsList a ++ kwIdsList b := by
  induction a with
  | nil => simp [kwIdsList]
  | cons k ks ih => simp [kwIdsList, ih]

theorem mem_kwIdsList_build (ch : List SpanNode) (x : String) :
    x ∈ kwIdsList (build_keyword_list ch) ↔
      ∃ c ∈ ch, classify_span c.spanOf = .KEYWORD ∧ x ∈ kwIds (build_keyword c) := by
  induction ch with
  | nil => simp [build_keyword_list, kwIdsList]
  | cons c cs ih =>
    rw [show build_keyword_list (c :: cs) =
      (if classify_span c.spanOf = .KEYWORD then [build_keyword c] else []) ++
        build_keyword_list cs from rfl]
    rw [kwIdsList_append]
    by_cases hk : classify_span c.spanOf = .KEYWORD
    · simp only [if_pos hk, kwIdsList, List.append_nil, List.mem_append, ih]
      constructor
      · rintro (h1 | h1)
        · exact ⟨c, List.mem_cons_self _ _, hk, by simpa [kwIds] using h1⟩
        · obtain ⟨d, hd, hkd, hxd⟩ := h1
          exact ⟨d, List.mem_cons_of_mem _ hd, hkd, hxd⟩
      · rintro ⟨d, hd, hkd, hxd⟩
        rcases List.mem_cons.mp hd with h1 | h1
        · subst h1
          exact Or.inl (by simpa [kwIds] using hxd)
        · exact Or.inr ⟨d, h1, hkd, hxd⟩
    · simp only [if_neg hk, kwIdsList, List.nil_append, ih]
      constructor
      · rintro ⟨d, hd, hkd, hxd⟩
        exact ⟨d, List.mem_cons_of_mem _ hd, hkd, hxd⟩
      · rintro ⟨d, hd, hkd, hxd⟩
        rcases List.mem_cons.mp hd with h1 | h1
        · subst h1
          exact absurd hkd hk
        · exact ⟨d, h1, hkd, hxd⟩

theorem kwChain_cases {n c : SpanNode} (h : KwChain n c) :
    ∃ m ∈ n.childrenOf, classify_span m.spanOf = .KEYWORD ∧ (c = m ∨ KwChain m c) := by
  induction h with
  | direct c hm hk => exact ⟨c, hm, hk, Or.inl rfl⟩
  | nested m c hnm hcm hkc ih =>
    obtain ⟨m', hm', hkm', hor⟩ := ih
    rcases hor with h1 | h1
    · subst h1
      exact ⟨m, hm', hkm', Or.inr (KwChain.direct m c hcm hkc)⟩
    · exact ⟨m', hm', hkm', Or.inr (KwChain.nested m' m c h1 hcm hkc)⟩

theorem kwChain_lift {n m c : SpanNode} (h : KwChain m c)
    (hm : m ∈ n.childrenOf) (hk : classify_span m.spanOf = .KEYWORD) :
    KwChain n c := by
  induction h with
  | direct c0 hcm hkc => exact KwChain.nested n m c0 (KwChain.direct n m hm hk) hcm hkc
  | nested m2 c0 hsub hcm hkc ih => exact KwChain.nested n m2 c0 ih hcm hkc

theorem spanNode_sizeOf_pos (m : SpanNode) : 1 ≤ sizeOf m := by
  cases m
  simp
  omega

theorem kwIdsList_chain :
    ∀ (nn : Nat) (ch : List SpanNode), sizeOf ch ≤ nn → ∀ (span : RawSpan) (x : String),
      (x ∈ kwIdsList (build_keyword_list ch) ↔
        ∃ c, KwChain (SpanNode.mk span ch) c ∧ c.spanOf.span_id = x) := by
  intro nn
  induction nn with
  | zero =>
    intro ch hsz span x
    cases ch with
    | nil =>
      simp only [build_keyword_list, kwIdsList, List.not_mem_nil, false_iff]
      rintro ⟨c, hc, _⟩
      obtain ⟨m, hm, _, _⟩ := kwChain_cases hc
      simp [SpanNode.childrenOf] at hm
    | cons c cs =>
      simp at hsz
  | succ n ih =>
    intro ch hsz span x
    rw [mem_kwIdsList_build]
    constructor
    · rintro ⟨c, hc, hkc, hxc⟩
      obtain ⟨spanC, chC⟩ := c
      have hszc : sizeOf chC ≤ n := by
        have h1 := List.sizeOf_lt_of_mem hc
        simp at h1
        omega
      simp only [kwIds, build_keyword, List.mem_cons] at hxc
      rcases hxc with h1 | h1
      · exact ⟨SpanNode.mk spanC chC,
          KwChain.direct _ _ hc hkc, by simpa [SpanNode.spanOf] using h1.symm⟩
      · obtain ⟨d, hd, hxd⟩ := (ih chC hszc spanC x).mp h1
        exact ⟨d, kwChain_lift hd hc hkc, hxd⟩
    · rintro ⟨c, hc, hxc⟩
      obtain ⟨m, hm, hkm, hor⟩ := kwChain_cases hc
      simp only [SpanNode.childrenOf] at hm
      obtain ⟨spanM, chM⟩ := m
      have hszm : sizeOf chM ≤ n := by
        have h1 := List.sizeOf_lt_of_mem hm
        simp at h1
        omega
      refine ⟨SpanNode.mk spanM chM, hm, hkm, ?_⟩
      simp only [kwIds, build_keyword, List.mem_cons]
      rcases hor with h1 | h1
      · subst h1
        exact Or.inl (by simpa [SpanNode.spanOf] using hxc.symm)
      · exact Or.inr ((ih chM hszm spanM x).mpr ⟨c, h1, hxc⟩)

theorem build_keyword_list_eq_filter_map (ch : List SpanNode) :
    build_keyword_list ch =
      (ch.filter (fun c => classify_span c.spanOf == SpanType.KEYWORD)).map build_keyword := by
  induction ch with
  | nil => rfl
  | cons c cs ih =>
    rw [show build_keyword_list (c :: cs) =
      (if classify_span c.spanOf = .KEYWORD then [build_keyword c] else []) ++
        build_keyword_list cs from rfl]
    rw [List.filter_cons]
    by_cases hk : classify_span c.spanOf = .KEYWORD
    · simp [hk, ih]
    · simp [hk, ih]

/-- C7: when folding a TEST node, exactly the direct children classified
KEYWORD become its top-level keywords, and classification is re-checked at
every nesting level: a span id appears in the folded keyword forest
exactly when a chain of KEYWORD-classified nodes leads to it from the TEST
node, so keywords below a non-KEYWORD child (of the test or of any
keyword) are excluded. -/
theorem C7_test_keyword_folding :
    ∀ (node : SpanNode),
      (build_test node).keywords =
        (node.childrenOf.filter
          (fun c => classify_span c.spanOf == SpanType.KEYWORD)).map build_keyword ∧
      ∀ x, (x ∈ kwIdsList (build_test node).keywords ↔
        ∃ c, KwChain node c ∧ c.spanOf.span_id = x) := by
  intro node
  obtain ⟨span, ch⟩ := node
  constructor
  · rw [show (build_test (SpanNode.mk span ch)).keywords = build_keyword_list ch from rfl]
    exact build_keyword_list_eq_filter_map ch
  · intro x
    rw [show (build_test (SpanNode.mk span ch)).keywords = build_keyword_list ch from rfl]
    exact kwIdsList_chain (sizeOf ch) ch (le_refl _) span x
